import Mathlib

set_option maxHeartbeats 1600000

/-!
Verification development for the multi-cursor text-editing core
(`src/vs/editor/common/cursor/oneCursor.ts` — classes `Cursor`,
`DeleteOperations`, `CursorCollection` — plus `cursorContext.ts`).

The TypeScript source is shallowly embedded: every class method becomes a
pure Lean function, object mutation becomes explicit state passing, and the
narrow external collaborators (text model, view model, coordinates
converter, cursor configuration) become structures of functions supplied as
parameters.  JavaScript numbers are embedded as `Int` (all arithmetic in
the source is on small integers).  Coordinate primitives
(`Position`/`Range`/`Selection` from `core/position|range|selection`) and
the `cursorCommon` value types are not part of the given sources; they are
modelled from the spec, which treats them as the fixed data-model
vocabulary.
-/
/-- Position in document coordinates: 1-based `lineNumber` and `column`.
Modelled from the spec: coordinate primitive supplied by the surrounding
system ("Position (line, column) ... pure, immutable, comparison/ordering
defined"). -/
structure Position where
  lineNumber : Int
  column : Int
deriving DecidableEq, Repr

/-- Strict document order on positions: first by line, then by column. -/
def Position.isBefore (a b : Position) : Bool :=
  if a.lineNumber < b.lineNumber then true
  else if b.lineNumber < a.lineNumber then false
  else a.column < b.column

/-- Non-strict document order on positions. -/
def Position.isBeforeOrEqual (a b : Position) : Bool :=
  if a.lineNumber < b.lineNumber then true
  else if b.lineNumber < a.lineNumber then false
  else a.column ≤ b.column

/-- Three-way comparison of positions: line difference, or column
difference on the same line (the sign is what callers consume). -/
def Position.compare (a b : Position) : Int :=
  if a.lineNumber = b.lineNumber then a.column - b.column
  else a.lineNumber - b.lineNumber

/-- Range of text: an ordered span between a start and an end position.
Modelled from the spec: coordinate primitive ("Range (ordered span of
positions)"). Values built through `Range.make` always satisfy
start ≤ end. -/
structure Range where
  startLineNumber : Int
  startColumn : Int
  endLineNumber : Int
  endColumn : Int
deriving DecidableEq, Repr

/-- The `Range` constructor: endpoints given in reversed document order are
swapped, so the stored start never exceeds the stored end. -/
def Range.make (sl sc el ec : Int) : Range :=
  if sl > el ∨ (sl = el ∧ sc > ec) then ⟨el, ec, sl, sc⟩ else ⟨sl, sc, el, ec⟩

def Range.getStartPosition (r : Range) : Position := ⟨r.startLineNumber, r.startColumn⟩

def Range.getEndPosition (r : Range) : Position := ⟨r.endLineNumber, r.endColumn⟩

def Range.isEmpty (r : Range) : Bool :=
  decide (r.startLineNumber = r.endLineNumber ∧ r.startColumn = r.endColumn)

def Range.fromPositions (s e : Position) : Range :=
  Range.make s.lineNumber s.column e.lineNumber e.column

/-- `Range.plusRange`: the union span of two ranges — the smaller of the two
starts and the larger of the two ends, in document order. -/
def Range.plusRange (a b : Range) : Range :=
  let s : Int × Int :=
    if b.startLineNumber < a.startLineNumber then (b.startLineNumber, b.startColumn)
    else if b.startLineNumber = a.startLineNumber then
      (b.startLineNumber, min b.startColumn a.startColumn)
    else (a.startLineNumber, a.startColumn)
  let e : Int × Int :=
    if b.endLineNumber > a.endLineNumber then (b.endLineNumber, b.endColumn)
    else if b.endLineNumber = a.endLineNumber then
      (b.endLineNumber, max b.endColumn a.endColumn)
    else (a.endLineNumber, a.endColumn)
  ⟨s.1, s.2, e.1, e.2⟩

/-- `Range.compareRangesUsingStarts`: lexicographic comparison by start
line, start column, end line, end column (sign consumed by sorting). -/
def Range.compareRangesUsingStarts (a b : Range) : Int :=
  if a.startLineNumber = b.startLineNumber then
    if a.startColumn = b.startColumn then
      if a.endLineNumber = b.endLineNumber then a.endColumn - b.endColumn
      else a.endLineNumber - b.endLineNumber
    else a.startColumn - b.startColumn
  else a.startLineNumber - b.startLineNumber

/-- Selection: a range plus a remembered anchor side.  The anchor is
`(selectionStartLineNumber, selectionStartColumn)` and the moving head is
`(positionLineNumber, positionColumn)`; the underlying range is the ordered
span between them.  Modelled from the spec: coordinate primitive
("Selection (a Range plus a remembered anchor/'selection start' side,
giving direction)"). -/
structure Selection where
  selectionStartLineNumber : Int
  selectionStartColumn : Int
  positionLineNumber : Int
  positionColumn : Int
deriving DecidableEq, Repr

/-- The ordered range underlying a selection (what the source's
`Selection extends Range` superclass constructor stores). -/
def Selection.range (s : Selection) : Range :=
  Range.make s.selectionStartLineNumber s.selectionStartColumn
    s.positionLineNumber s.positionColumn

def Selection.getStartPosition (s : Selection) : Position := s.range.getStartPosition

def Selection.getEndPosition (s : Selection) : Position := s.range.getEndPosition

def Selection.isEmpty (s : Selection) : Bool := s.range.isEmpty

/-- The head (caret) of the selection. -/
def Selection.getPosition (s : Selection) : Position :=
  ⟨s.positionLineNumber, s.positionColumn⟩

/-- The anchor of the selection. -/
def Selection.getSelectionStart (s : Selection) : Position :=
  ⟨s.selectionStartLineNumber, s.selectionStartColumn⟩

/-- `Selection.fromPositions (anchor, head)`. -/
def Selection.fromPositions (anchor head : Position) : Selection :=
  ⟨anchor.lineNumber, anchor.column, head.lineNumber, head.column⟩

/-- Union span of a selection (viewed as its range) and another range;
`Selection` inherits `plusRange` from `Range` in the source. -/
def Selection.plusRange (s : Selection) (r : Range) : Range :=
  s.range.plusRange r

/-- `Selection.equalsSelection` compares the four defining coordinates,
i.e. it is structural equality on `Selection`. -/
def Selection.equalsSelection (a b : Selection) : Bool := decide (a = b)

/-!
Stable sort model.  `Array.prototype.sort` with a comparator is modelled as
a stable insertion sort: each element is inserted into the already-placed
prefix just before the first earlier element that compares strictly
greater, so elements that compare equal keep their original relative order
(the stability ECMAScript guarantees).  ECMAScript pins the result down
only for consistent comparators; when a comparator is inconsistent (some
pair compares as mutually preceding) the engine's order is
implementation-defined, and this model then fixes one determinate order
that a real engine need not produce.  Every sort-order theorem below
therefore either uses a consistent comparator or restricts its inputs to
lists on which the comparator in play is consistent.
-/
/-- Insert `x` into `acc` before the first element `y` with `cmp y x > 0`. -/
def insertCmp {α : Type} (cmp : α → α → Int) (x : α) : List α → List α
  | [] => [x]
  | y :: ys => if cmp y x > 0 then x :: y :: ys else y :: insertCmp cmp x ys

/-- Stable sort by a three-way comparator (model of `Array.prototype.sort`;
faithful for consistent comparators, see the section comment). -/
def sortCmp {α : Type} (cmp : α → α → Int) (l : List α) : List α :=
  l.foldl (fun acc x => insertCmp cmp x acc) []

/-- Kind of a selection anchor.  Modelled from the spec's
`selectionStartKind: enum{Simple, ...}` (the `cursorCommon` module is not
part of the given sources). -/
inductive SelectionStartKind where
  | Simple
  | Word
  | Line
deriving DecidableEq, Repr

/-- One cursor's state in a single coordinate space.  Modelled from the
spec's data model (the `cursorCommon` module is not part of the given
sources): selection-start range, its kind, leftover visible columns for the
anchor, the caret position, and its leftover visible columns. -/
structure SingleCursorState where
  selectionStart : Range
  selectionStartKind : SelectionStartKind
  selectionStartLeftoverVisibleColumns : Int
  position : Position
  leftoverVisibleColumns : Int
deriving DecidableEq, Repr

/-- The selection described by a cursor state: anchored at the
selection-start side away from the caret.  Modelled from the spec: the
anchor is the selection-start range's start unless the range is non-empty
and the caret sits at or before that start, in which case the range's end
anchors the selection. -/
def SingleCursorState.selection (s : SingleCursorState) : Selection :=
  if s.selectionStart.isEmpty ∨
      ¬(s.position.isBeforeOrEqual s.selectionStart.getStartPosition = true) then
    Selection.fromPositions s.selectionStart.getStartPosition s.position
  else
    Selection.fromPositions s.selectionStart.getEndPosition s.position

/-- A partial cursor state: at least one of the two coordinate-space states
(`c.f. PartialCursorState` in `cursorCommon`, modelled from the spec). -/
structure PartialCursorState where
  modelState : Option SingleCursorState
  viewState : Option SingleCursorState
deriving DecidableEq, Repr

/-- `CursorState.fromModelSelection`: a model-space-only partial state with
a collapsed selection-start range at the anchor and zero leftover columns.
Modelled from the spec (`cursorCommon` is not part of the given sources). -/
def CursorState.fromModelSelection (sel : Selection) : PartialCursorState :=
  { modelState := some
      ⟨Range.fromPositions sel.getSelectionStart sel.getSelectionStart,
        SelectionStartKind.Simple, 0, sel.getPosition, 0⟩,
    viewState := none }

/-!
External collaborators, embedded as structures of functions (the source
consumes them through the narrow interfaces listed in the spec's §6).
-/
/-- Document accessor functions (`ITextModel` as used by `Cursor`).
Tracked-range registration (`_setTrackedRange`/`_getTrackedRange`) is a
side effect on document-owned state outside this core and is not modelled;
no claim observes it. -/
structure TextModelFns where
  validatePosition : Position → Position
  validateRange : Range → Range

/-- View model accessor (`ICursorSimpleModel` as used by `Cursor`), with
`normalizePosition` always invoked at `PositionAffinity.None` in the
source, so the affinity argument is dropped. -/
structure ViewModelFns where
  normalizePosition : Position → Position

/-- Coordinates converter (`ICoordinatesConverter`). -/
structure ConverterFns where
  convertViewRangeToModelRange : Range → Range
  convertViewPositionToModelPosition : Position → Position
  convertModelPositionToViewPosition : Position → Position
  validateViewRange : Range → Range → Range
  validateViewPosition : Position → Position → Position

/-- Auto-closing strategy for brackets/quotes
(`EditorAutoClosingStrategy`). -/
inductive AutoClosingStrategy where
  | always
  | languageDefined
  | beforeWhitespace
  | never
deriving DecidableEq, Repr

/-- Auto-closing delete policy (`EditorAutoClosingEditStrategy`). -/
inductive AutoClosingEditStrategy where
  | always
  | auto
  | never
deriving DecidableEq, Repr

/-- One auto-closing pair (`StandardAutoClosingPairConditional`, reduced to
the `open`/`close` fields the source reads). -/
structure AutoClosingPair where
  opening : Char
  closing : Char
deriving DecidableEq, Repr

/-- Editing configuration (`CursorConfiguration`, modelled from the spec's
§6 list of configuration fields; `cursorCommon` is not part of the given
sources).  `autoClosingPairsOpenByEnd` is the map from the last character
of an opening delimiter to its candidate pairs. -/
structure CursorConfig where
  multiCursorMergeOverlapping : Bool
  useTabStops : Bool
  indentSize : Int
  tabSize : Int
  autoClosingBrackets : AutoClosingStrategy
  autoClosingQuotes : AutoClosingStrategy
  autoClosingDelete : AutoClosingEditStrategy
  autoClosingPairsOpenByEnd : Char → Option (List AutoClosingPair)
  emptySelectionClipboard : Bool

/-- Per-operation bundle of collaborators (`CursorContext`). -/
structure CursorContext where
  model : TextModelFns
  viewModel : ViewModelFns
  coordinatesConverter : ConverterFns
  cursorConfig : CursorConfig

/-- A single cursor's dual state (`Cursor`).  The tracked-range identifier
and tracking flag interact only with the unmodelled document range table
and are omitted. -/
structure Cursor where
  modelState : SingleCursorState
  viewState : SingleCursorState
deriving DecidableEq, Repr

/-- `Cursor._validatePositionWithCache`: reuse the cached output when the
position equals the cached input, otherwise query the view model. -/
def Cursor.validatePositionWithCache (viewModel : ViewModelFns)
    (position cacheInput cacheOutput : Position) : Position :=
  if position = cacheInput then cacheOutput
  else viewModel.normalizePosition position

/-- `Cursor._validateViewState`: normalize the primary position, then the
selection-start's start and end through the one-entry cache; on the fast
path (nothing moved) return the state unchanged, otherwise rebuild it with
leftover columns adjusted by each position's column displacement. -/
def Cursor.validateViewState (viewModel : ViewModelFns)
    (viewState : SingleCursorState) : SingleCursorState :=
  let position := viewState.position
  let sStartPosition := viewState.selectionStart.getStartPosition
  let sEndPosition := viewState.selectionStart.getEndPosition
  let validPosition := viewModel.normalizePosition position
  let validSStartPosition :=
    Cursor.validatePositionWithCache viewModel sStartPosition position validPosition
  let validSEndPosition :=
    Cursor.validatePositionWithCache viewModel sEndPosition sStartPosition validSStartPosition
  if position = validPosition ∧ sStartPosition = validSStartPosition ∧
      sEndPosition = validSEndPosition then
    viewState
  else
    ⟨Range.fromPositions validSStartPosition validSEndPosition,
      viewState.selectionStartKind,
      viewState.selectionStartLeftoverVisibleColumns + sStartPosition.column - validSStartPosition.column,
      validPosition,
      viewState.leftoverVisibleColumns + position.column - validPosition.column⟩

/-- Variant of `Cursor._validateViewState` written from the spec's words
for the refinement claim: every position is validated by calling
`normalizePosition` directly, with no cache. -/
def Cursor.validateViewStateDirect (viewModel : ViewModelFns)
    (viewState : SingleCursorState) : SingleCursorState :=
  let position := viewState.position
  let sStartPosition := viewState.selectionStart.getStartPosition
  let sEndPosition := viewState.selectionStart.getEndPosition
  let validPosition := viewModel.normalizePosition position
  let validSStartPosition := viewModel.normalizePosition sStartPosition
  let validSEndPosition := viewModel.normalizePosition sEndPosition
  if position = validPosition ∧ sStartPosition = validSStartPosition ∧
      sEndPosition = validSEndPosition then
    viewState
  else
    ⟨Range.fromPositions validSStartPosition validSEndPosition,
      viewState.selectionStartKind,
      viewState.selectionStartLeftoverVisibleColumns + sStartPosition.column - validSStartPosition.column,
      validPosition,
      viewState.leftoverVisibleColumns + position.column - validPosition.column⟩

/-- `Cursor._setState`: validate whichever states were supplied and derive
the missing one.  The model state, when given, is validated against the
document with leftover columns preserved only where validation left the
corresponding range/position unchanged; when absent it is derived from the
(already view-validated) view state.  The view state, when absent, is
derived by converting the final model state; when given it is re-validated
against the final model state.  The tracked-range refresh at the end of the
source method touches only the unmodelled document range table. -/
def Cursor.setStateFn (ctx : CursorContext) (c : Cursor)
    (modelState0 viewState0 : Option SingleCursorState) : Cursor :=
  let viewState1 := viewState0.map (Cursor.validateViewState ctx.viewModel)
  let modelState1 : Option SingleCursorState :=
    match modelState0, viewState1 with
    | none, none => none
    | none, some vs =>
      let selectionStart := ctx.model.validateRange
        (ctx.coordinatesConverter.convertViewRangeToModelRange vs.selectionStart)
      let position := ctx.model.validatePosition
        (ctx.coordinatesConverter.convertViewPositionToModelPosition vs.position)
      some ⟨selectionStart, vs.selectionStartKind, vs.selectionStartLeftoverVisibleColumns,
        position, vs.leftoverVisibleColumns⟩
    | some msIn, _ =>
      let selectionStart := ctx.model.validateRange msIn.selectionStart
      let selectionStartLeftoverVisibleColumns :=
        if msIn.selectionStart = selectionStart then
          msIn.selectionStartLeftoverVisibleColumns
        else 0
      let position := ctx.model.validatePosition msIn.position
      let leftoverVisibleColumns :=
        if msIn.position = position then msIn.leftoverVisibleColumns else 0
      some ⟨selectionStart, msIn.selectionStartKind, selectionStartLeftoverVisibleColumns,
        position, leftoverVisibleColumns⟩
  match modelState1, viewState1 with
  | none, _ => c
  | some ms, none =>
    let viewSelectionStart1 := ctx.coordinatesConverter.convertModelPositionToViewPosition
      ⟨ms.selectionStart.startLineNumber, ms.selectionStart.startColumn⟩
    let viewSelectionStart2 := ctx.coordinatesConverter.convertModelPositionToViewPosition
      ⟨ms.selectionStart.endLineNumber, ms.selectionStart.endColumn⟩
    let viewSelectionStart := Range.make viewSelectionStart1.lineNumber viewSelectionStart1.column
      viewSelectionStart2.lineNumber viewSelectionStart2.column
    let viewPosition := ctx.coordinatesConverter.convertModelPositionToViewPosition ms.position
    ⟨ms, ⟨viewSelectionStart, ms.selectionStartKind, ms.selectionStartLeftoverVisibleColumns,
      viewPosition, ms.leftoverVisibleColumns⟩⟩
  | some ms, some vs =>
    let viewSelectionStart := ctx.coordinatesConverter.validateViewRange vs.selectionStart ms.selectionStart
    let viewPosition := ctx.coordinatesConverter.validateViewPosition vs.position ms.position
    ⟨ms, ⟨viewSelectionStart, ms.selectionStartKind, ms.selectionStartLeftoverVisibleColumns,
      viewPosition, ms.leftoverVisibleColumns⟩⟩

/-- The state both coordinate spaces start from: document start. -/
def Cursor.initialState : SingleCursorState :=
  ⟨⟨1, 1, 1, 1⟩, SelectionStartKind.Simple, 0, ⟨1, 1⟩, 0⟩

/-- The `Cursor` constructor: both states are set to document start
`(1,1)` through `_setState`. -/
def Cursor.new (ctx : CursorContext) : Cursor :=
  Cursor.setStateFn ctx ⟨Cursor.initialState, Cursor.initialState⟩
    (some Cursor.initialState) (some Cursor.initialState)

/-!
Delete operations (`DeleteOperations` in `oneCursor.ts`).  The simple
model interface used here exposes line content as a character list.  The
two external string/movement helpers the source calls
(`MoveOperations.right` and `strings.getLeftDeleteOffset`) are outside
the given sources: the former is carried as a model field, the latter is
modelled from the spec.
-/
/-- Kind of the previous edit operation (`EditOperationType` in
`cursorCommon`, modelled from the spec's "previous edit-operation kind"). -/
inductive EditOperationType where
  | Other
  | DeletingLeft
  | DeletingRight
  | Typing
deriving DecidableEq, Repr

/-- A replace-edit command (`ReplaceCommand`): replace `range` with `text`
(always the empty string in this file's callers).  Modelled from the spec's
"replace-range-with-empty-string command". -/
structure ReplaceCommand where
  range : Range
  text : List Char
deriving DecidableEq, Repr

/-- Result bundle of an edit operation (`EditOperationResult` in
`cursorCommon`, modelled from the spec: commands plus undo-stack grouping
hints). -/
structure EditOperationResult where
  type : EditOperationType
  commands : List (Option ReplaceCommand)
  shouldPushStackElementBefore : Bool
  shouldPushStackElementAfter : Bool
deriving DecidableEq, Repr

/-- Document accessor for delete operations (`ICursorSimpleModel`), with
line content as a character list.  `moveRight` stands for the external
`MoveOperations.right(config, model, ·)` — per the spec, "one
grapheme-aware step" to the right. -/
structure SimpleModel where
  getLineContent : Int → List Char
  getLineCount : Int
  getLineMaxColumn : Int → Int
  moveRight : Position → Position

/-- JavaScript `charAt` on a line: the character at 0-based index `i`, or
none when out of bounds (where `charAt` returns the empty string). -/
def charAt (s : List Char) (i : Int) : Option Char :=
  if i < 0 then none else s.get? i.toNat

def charSpace : Char := Char.ofNat 32

def charTab : Char := Char.ofNat 9

/-- `isQuote` from `cursorCommon` (modelled from the spec: quote
delimiters, gated separately from brackets): single quote, double quote or
backquote. -/
def isQuoteChar (c : Char) : Bool :=
  decide (c = Char.ofNat 39 ∨ c = Char.ofNat 34 ∨ c = Char.ofNat 96)

/-- Body of the per-selection check of
`DeleteOperations.isAutoClosingPairDelete`: the selection must be a caret
strictly inside the line, the character before it an opening delimiter
whose matching close follows it (each side gated by its own setting), and,
under the `auto` policy, the caret must sit at the start of a range
auto-closed since the last edit. -/
def DeleteOperations.autoClosingPairDeleteCheck
    (autoClosingDelete : AutoClosingEditStrategy)
    (autoClosingBrackets autoClosingQuotes : AutoClosingStrategy)
    (autoClosingPairsOpen : Char → Option (List AutoClosingPair))
    (model : SimpleModel) (autoClosedCharacters : List Range)
    (selection : Selection) : Bool :=
  let position := selection.getPosition
  if ¬(selection.isEmpty = true) then false
  else
    let lineText := model.getLineContent position.lineNumber
    if position.column < 2 ∨ position.column ≥ (lineText.length : Int) + 1 then false
    else
      match charAt lineText (position.column - 2) with
      | none => false
      | some character =>
        match autoClosingPairsOpen character with
        | none => false
        | some autoClosingPairCandidates =>
          if isQuoteChar character ∧ autoClosingQuotes = AutoClosingStrategy.never then false
          else if ¬(isQuoteChar character = true) ∧
              autoClosingBrackets = AutoClosingStrategy.never then false
          else
            let afterCharacter := charAt lineText (position.column - 1)
            let foundAutoClosingPair := autoClosingPairCandidates.any
              (fun p => decide (p.opening = character ∧ some p.closing = afterCharacter))
            if ¬(foundAutoClosingPair = true) then false
            else
              if autoClosingDelete = AutoClosingEditStrategy.auto then
                autoClosedCharacters.any (fun r =>
                  decide (position.lineNumber = r.startLineNumber ∧
                    position.column = r.startColumn))
              else true

/-- `DeleteOperations.isAutoClosingPairDelete`: false when both pair kinds
or pair-aware delete are disabled; otherwise every cursor must pass the
per-selection check (an all-or-nothing batch decision). -/
def DeleteOperations.isAutoClosingPairDelete
    (autoClosingDelete : AutoClosingEditStrategy)
    (autoClosingBrackets autoClosingQuotes : AutoClosingStrategy)
    (autoClosingPairsOpen : Char → Option (List AutoClosingPair))
    (model : SimpleModel) (selections : List Selection)
    (autoClosedCharacters : List Range) : Bool :=
  if autoClosingBrackets = AutoClosingStrategy.never ∧
      autoClosingQuotes = AutoClosingStrategy.never then false
  else if autoClosingDelete = AutoClosingEditStrategy.never then false
  else selections.all (DeleteOperations.autoClosingPairDeleteCheck autoClosingDelete
    autoClosingBrackets autoClosingQuotes autoClosingPairsOpen model autoClosedCharacters)

/-- `DeleteOperations._runAutoClosingPairDelete`: one command per cursor
deleting the two characters around the caret, and a fresh undo boundary. -/
def DeleteOperations.runAutoClosingPairDelete (_config : CursorConfig)
    (_model : SimpleModel) (selections : List Selection) :
    Bool × List ReplaceCommand :=
  (true, selections.map (fun s =>
    let position := s.getPosition
    ⟨Range.make position.lineNumber (position.column - 1)
      position.lineNumber (position.column + 1), []⟩))

/-- Loop of `DeleteOperations.deleteRight`: threads the undo-grouping flag
through the selections, emitting one optional command each. -/
def DeleteOperations.deleteRightLoop (model : SimpleModel) :
    List Selection → Bool → Bool × List (Option ReplaceCommand)
  | [], flag => (flag, [])
  | selection :: rest, flag =>
    let deleteSelection0 : Range := selection.range
    let deleteSelection : Range :=
      if deleteSelection0.isEmpty then
        let position := selection.getPosition
        let rightOfPosition := model.moveRight position
        Range.make rightOfPosition.lineNumber rightOfPosition.column
          position.lineNumber position.column
      else deleteSelection0
    if deleteSelection.isEmpty then
      let r := DeleteOperations.deleteRightLoop model rest flag
      (r.1, none :: r.2)
    else
      let flag1 := if deleteSelection.startLineNumber ≠ deleteSelection.endLineNumber
        then true else flag
      let r := DeleteOperations.deleteRightLoop model rest flag1
      (r.1, some ⟨deleteSelection, []⟩ :: r.2)

/-- `DeleteOperations.deleteRight`: the grouping flag starts true unless
the previous operation was also a forward-delete, and each empty selection
deletes up to one step right of the caret. -/
def DeleteOperations.deleteRight (prevEditOperationType : EditOperationType)
    (_config : CursorConfig) (model : SimpleModel) (selections : List Selection) :
    Bool × List (Option ReplaceCommand) :=
  DeleteOperations.deleteRightLoop model selections
    (decide (prevEditOperationType ≠ EditOperationType.DeletingRight))

/-- `strings.getLeftDeleteOffset`.  Modelled from the spec: the offset one
deletion step to the left ("one grapheme-aware step left within the
line"); grapheme clusters are abstracted to single characters here. -/
def getLeftDeleteOffset (offset : Int) (_lineContent : List Char) : Int :=
  offset - 1

/-- `strings.firstNonWhitespaceIndex`.  Modelled from the spec: 0-based
index of the first character that is not a space or tab, or -1 when the
whole line is whitespace. -/
def firstNonWhitespaceIndexFn : List Char → Int
  | [] => -1
  | c :: rest =>
    if ¬(c = charSpace) ∧ ¬(c = charTab) then 0
    else
      let r := firstNonWhitespaceIndexFn rest
      if r = -1 then -1 else r + 1

def visibleColumnFromColumnAux (tabSize : Int) : List Char → Int → Int → Int
  | [], _, vis => vis
  | c :: rest, n, vis =>
    if n ≤ 0 then vis
    else visibleColumnFromColumnAux tabSize rest (n - 1)
      (if c = charTab then vis + tabSize - vis % tabSize else vis + 1)

/-- `config.visibleColumnFromColumn`.  Modelled from the spec: the
0-based visible column of a 1-based column, advancing tabs to the next
multiple of the tab size and every other character by one. -/
def visibleColumnFromColumn (config : CursorConfig) (model : SimpleModel)
    (position : Position) : Int :=
  visibleColumnFromColumnAux config.tabSize
    (model.getLineContent position.lineNumber) (position.column - 1) 0

def columnFromVisibleColumnAux (tabSize : Int) (targetVisible : Int) :
    List Char → Int → Int → Int
  | [], col, _ => col
  | c :: rest, col, vis =>
    if vis ≥ targetVisible then col
    else columnFromVisibleColumnAux tabSize targetVisible rest (col + 1)
      (if c = charTab then vis + tabSize - vis % tabSize else vis + 1)

/-- `config.columnFromVisibleColumn`.  Modelled from the spec: the
leftmost 1-based column whose visible column reaches the target. -/
def columnFromVisibleColumn (config : CursorConfig) (model : SimpleModel)
    (lineNumber : Int) (targetVisible : Int) : Int :=
  columnFromVisibleColumnAux config.tabSize targetVisible
    (model.getLineContent lineNumber) 1 0

/-- `CursorColumns.prevIndentTabStop`.  Modelled from the spec: the
previous indent stop — the largest multiple of the indent size strictly
below the visible column, floored at zero. -/
def prevIndentTabStop (visibleColumn indentSize : Int) : Int :=
  max 0 (visibleColumn - 1 - (visibleColumn - 1) % indentSize)

/-- `DeleteOperations.getPositionAfterDeleteLeft`: one deletion step left
within the line, or the previous line's end when at column 1, or the
position itself at document start. -/
def DeleteOperations.getPositionAfterDeleteLeft (position : Position)
    (model : SimpleModel) : Position :=
  if position.column > 1 then
    let idx := getLeftDeleteOffset (position.column - 1)
      (model.getLineContent position.lineNumber)
    ⟨position.lineNumber, idx + 1⟩
  else if position.lineNumber > 1 then
    let newLine := position.lineNumber - 1
    ⟨newLine, model.getLineMaxColumn newLine⟩
  else position

/-- `DeleteOperations.getDeleteRange`: a non-empty selection deletes
itself; a caret inside leading indentation with tab stops enabled snaps
left to the previous indent stop; otherwise one deletion step left. -/
def DeleteOperations.getDeleteRange (selection : Selection)
    (model : SimpleModel) (config : CursorConfig) : Range :=
  if ¬(selection.isEmpty = true) then selection.range
  else
    let position := selection.getPosition
    if config.useTabStops = true ∧ position.column > 1 then
      let lineContent := model.getLineContent position.lineNumber
      let firstNonWhitespaceIndex := firstNonWhitespaceIndexFn lineContent
      let lastIndentationColumn : Int :=
        if firstNonWhitespaceIndex = -1 then (lineContent.length : Int) + 1
        else firstNonWhitespaceIndex + 1
      if position.column ≤ lastIndentationColumn then
        let fromVisibleColumn := visibleColumnFromColumn config model position
        let toVisibleColumn := prevIndentTabStop fromVisibleColumn config.indentSize
        let toColumn := columnFromVisibleColumn config model position.lineNumber toVisibleColumn
        Range.make position.lineNumber toColumn position.lineNumber position.column
      else
        Range.fromPositions
          (DeleteOperations.getPositionAfterDeleteLeft position model) position
    else
      Range.fromPositions
        (DeleteOperations.getPositionAfterDeleteLeft position model) position

/-- Loop of the non-pair branch of `DeleteOperations.deleteLeft`. -/
def DeleteOperations.deleteLeftLoop (model : SimpleModel) (config : CursorConfig) :
    List Selection → Bool → Bool × List (Option ReplaceCommand)
  | [], flag => (flag, [])
  | selection :: rest, flag =>
    let deleteRange := DeleteOperations.getDeleteRange selection model config
    if deleteRange.isEmpty then
      let r := DeleteOperations.deleteLeftLoop model config rest flag
      (r.1, none :: r.2)
    else
      let flag1 := if deleteRange.startLineNumber ≠ deleteRange.endLineNumber
        then true else flag
      let r := DeleteOperations.deleteLeftLoop model config rest flag1
      (r.1, some ⟨deleteRange, []⟩ :: r.2)

/-- `DeleteOperations.deleteLeft`: when `isAutoClosingPairDelete` holds the
pair-deleting branch runs; otherwise per-cursor delete ranges with the
backward-delete undo-grouping rule. -/
def DeleteOperations.deleteLeft (prevEditOperationType : EditOperationType)
    (config : CursorConfig) (model : SimpleModel) (selections : List Selection)
    (autoClosedCharacters : List Range) : Bool × List (Option ReplaceCommand) :=
  if DeleteOperations.isAutoClosingPairDelete config.autoClosingDelete
      config.autoClosingBrackets config.autoClosingQuotes
      config.autoClosingPairsOpenByEnd model selections autoClosedCharacters then
    let r := DeleteOperations.runAutoClosingPairDelete config model selections
    (r.1, r.2.map some)
  else
    DeleteOperations.deleteLeftLoop model config selections
      (decide (prevEditOperationType ≠ EditOperationType.DeletingLeft))

/-- The comparator `DeleteOperations.cut` passes to `sort`: it compares
one selection's START position against the other selection's END
position. -/
def DeleteOperations.cutSelectionsCompare (a b : Selection) : Int :=
  Position.compare a.getStartPosition b.getEndPosition

/-- Loop of `DeleteOperations.cut`, threading `lastCutRange`: a non-empty
selection deletes itself; an empty one deletes its whole line (with the
three line-position cases and the adjacent-cut guard) when the
empty-selection-clipboard setting is on, else nothing. -/
def DeleteOperations.cutLoop (config : CursorConfig) (model : SimpleModel) :
    List Selection → Option Range → List (Option ReplaceCommand)
  | [], _ => []
  | selection :: rest, lastCutRange =>
    if selection.isEmpty then
      if config.emptySelectionClipboard then
        let position := selection.getPosition
        let bounds : Int × Int × Int × Int :=
          if position.lineNumber < model.getLineCount then
            (position.lineNumber, 1, position.lineNumber + 1, 1)
          else if position.lineNumber > 1 ∧
              ¬((lastCutRange.map Range.endLineNumber) = some position.lineNumber) then
            (position.lineNumber - 1, model.getLineMaxColumn (position.lineNumber - 1),
              position.lineNumber, model.getLineMaxColumn position.lineNumber)
          else
            (position.lineNumber, 1, position.lineNumber,
              model.getLineMaxColumn position.lineNumber)
        let deleteSelection := Range.make bounds.1 bounds.2.1 bounds.2.2.1 bounds.2.2.2
        let cmd : Option ReplaceCommand :=
          if ¬(deleteSelection.isEmpty = true) then some ⟨deleteSelection, []⟩ else none
        cmd :: DeleteOperations.cutLoop config model rest (some deleteSelection)
      else
        none :: DeleteOperations.cutLoop config model rest lastCutRange
    else
      some ⟨selection.range, []⟩ :: DeleteOperations.cutLoop config model rest lastCutRange

/-- `DeleteOperations.cut`: sort the selections with the code's comparator,
run the cut loop, and never group with adjacent undo entries.  The code's
comparator is inconsistent on overlapping selections, where ECMAScript
leaves the sorted order implementation-defined; the model's order is only
established to match the engine's on selection lists that keep the
comparator consistent (pairwise strictly disjoint or equal). -/
def DeleteOperations.cut (config : CursorConfig) (model : SimpleModel)
    (selections : List Selection) : EditOperationResult :=
  ⟨EditOperationType.Other,
    DeleteOperations.cutLoop config model
      (sortCmp DeleteOperations.cutSelectionsCompare selections) none,
    true, true⟩

/-!
Cursor collection (`CursorCollection`).  Methods that mutate `this` become
functions from collection to collection.  Accesses that would throw in
JavaScript (indexing a missing element and then dereferencing it) are
embedded as `Option` with `none` for the crash.  `normalize` additionally
returns a ghost log of the `looserIndex` values at which cursors were
removed, so that theorems can speak about which indices removals touch;
the production result is the first component.
-/
/-- The ordered cursor list (index 0 is the primary cursor) plus the
most-recently-added cursor index. -/
structure CursorCollection where
  cursors : List Cursor
  lastAddedCursorIndex : Int
deriving DecidableEq, Repr

/-- The `CursorCollection` constructor: one primary cursor. -/
def CursorCollection.new (ctx : CursorContext) : CursorCollection :=
  ⟨[Cursor.new ctx], 0⟩

/-- `CursorCollection._addSecondaryCursor`: push a fresh cursor and mark it
as the most recently added (`cursors.length - 1` after the push). -/
def CursorCollection.addSecondaryCursor (ctx : CursorContext)
    (coll : CursorCollection) : CursorCollection :=
  ⟨coll.cursors ++ [Cursor.new ctx], (coll.cursors.length : Int)⟩

/-- `CursorCollection._removeSecondaryCursor`: adjust the last-added index,
then dispose and splice out the cursor at `removeIndex + 1`; dereferencing
a missing element is the crash case. -/
def CursorCollection.removeSecondaryCursor (coll : CursorCollection)
    (removeIndex : Int) : Option CursorCollection :=
  let lastAdded1 :=
    if coll.lastAddedCursorIndex ≥ removeIndex + 1 then coll.lastAddedCursorIndex - 1
    else coll.lastAddedCursorIndex
  if 0 ≤ removeIndex + 1 ∧ removeIndex + 1 < (coll.cursors.length : Int) then
    some ⟨coll.cursors.eraseIdx (removeIndex + 1).toNat, lastAdded1⟩
  else none

/-- The update loop of `CursorCollection._setSecondaryStates`: secondary
cursor `i + 1` receives state `i`. -/
def CursorCollection.setSecondaryLoop (ctx : CursorContext) :
    List Cursor → List PartialCursorState → Nat → Option (List Cursor)
  | cursors, [], _ => some cursors
  | cursors, s :: rest, i =>
    match cursors.get? (i + 1) with
    | none => none
    | some c =>
      CursorCollection.setSecondaryLoop ctx
        (cursors.set (i + 1) (Cursor.setStateFn ctx c s.modelState s.viewState)) rest (i + 1)

/-- The creation loop of `CursorCollection._setSecondaryStates`. -/
def CursorCollection.addSecondaryCursors (ctx : CursorContext)
    (coll : CursorCollection) : Nat → CursorCollection
  | 0 => coll
  | n + 1 =>
    CursorCollection.addSecondaryCursors ctx
      (CursorCollection.addSecondaryCursor ctx coll) n

/-- The removal loop of `CursorCollection._setSecondaryStates`: each step
removes at `cursors.length - 2`, i.e. the last cursor. -/
def CursorCollection.removeSecondaryCursorsFromTail (coll : CursorCollection) :
    Nat → Option CursorCollection
  | 0 => some coll
  | n + 1 =>
    match coll.removeSecondaryCursor ((coll.cursors.length : Int) - 2) with
    | none => none
    | some c => CursorCollection.removeSecondaryCursorsFromTail c n

/-- `CursorCollection._setSecondaryStates`: create or remove secondary
cursors until their count matches the desired states, then update each. -/
def CursorCollection.setSecondaryStates (ctx : CursorContext)
    (coll : CursorCollection) (secondaryStates : List PartialCursorState) :
    Option CursorCollection :=
  let secondaryCursorsLength : Int := (coll.cursors.length : Int) - 1
  let secondaryStatesLength : Int := (secondaryStates.length : Int)
  let adjusted : Option CursorCollection :=
    if secondaryCursorsLength < secondaryStatesLength then
      some (CursorCollection.addSecondaryCursors ctx coll
        (secondaryStatesLength - secondaryCursorsLength).toNat)
    else if secondaryCursorsLength > secondaryStatesLength then
      CursorCollection.removeSecondaryCursorsFromTail coll
        (secondaryCursorsLength - secondaryStatesLength).toNat
    else some coll
  match adjusted with
  | none => none
  | some c =>
    match CursorCollection.setSecondaryLoop ctx c.cursors secondaryStates 0 with
    | none => none
    | some cs => some ⟨cs, c.lastAddedCursorIndex⟩

/-- `CursorCollection.setStates`: a null argument is a no-op; otherwise the
primary cursor is updated from `states[0]` (reading `states[0].modelState`
of an empty array is the crash case) and the rest go to
`_setSecondaryStates`. -/
def CursorCollection.setStates (ctx : CursorContext) (coll : CursorCollection)
    (states : Option (List PartialCursorState)) : Option CursorCollection :=
  match states with
  | none => some coll
  | some [] => none
  | some (s0 :: rest) =>
    match coll.cursors with
    | [] => none
    | c0 :: cs =>
      CursorCollection.setSecondaryStates ctx
        ⟨Cursor.setStateFn ctx c0 s0.modelState s0.viewState :: cs,
          coll.lastAddedCursorIndex⟩ rest

/-- `CursorCollection.killSecondaryCursors`: set an empty secondary state
list. -/
def CursorCollection.killSecondaryCursors (ctx : CursorContext)
    (coll : CursorCollection) : Option CursorCollection :=
  CursorCollection.setSecondaryStates ctx coll []

/-- State of the `normalize` merge loop: the live collection, the sorted
snapshot of `(original index, selection)` pairs, and the ghost log of
removal indices. -/
structure NormState where
  coll : CursorCollection
  sorted : List (Nat × Selection)
  removedLog : List Nat
deriving Repr

/-- The merge condition the loop evaluates for the sorted pair at
`idx`, `idx + 1`: with a caret in the pair, merge when the later start is
at-or-before the earlier end; with two non-empty selections, merge only on
strict overlap. -/
def normalizeShouldMerge (st : NormState) (idx : Nat) : Bool :=
  let currentSelection := (st.sorted.getD idx (0, ⟨1, 1, 1, 1⟩)).2
  let nextSelection := (st.sorted.getD (idx + 1) (0, ⟨1, 1, 1, 1⟩)).2
  if nextSelection.isEmpty ∨ currentSelection.isEmpty then
    nextSelection.getStartPosition.isBeforeOrEqual currentSelection.getEndPosition
  else
    nextSelection.getStartPosition.isBefore currentSelection.getEndPosition

/-- Sorted position of the merge winner (the entry with the smaller
original index). -/
def normalizeWinnerSorted (st : NormState) (idx : Nat) : Nat :=
  if (st.sorted.getD idx (0, ⟨1, 1, 1, 1⟩)).1 <
      (st.sorted.getD (idx + 1) (0, ⟨1, 1, 1, 1⟩)).1 then idx else idx + 1

/-- Sorted position of the merge loser (the entry with the larger
original index). -/
def normalizeLooserSorted (st : NormState) (idx : Nat) : Nat :=
  if (st.sorted.getD idx (0, ⟨1, 1, 1, 1⟩)).1 <
      (st.sorted.getD (idx + 1) (0, ⟨1, 1, 1, 1⟩)).1 then idx + 1 else idx

/-- The body of `normalize`'s `shouldMergeCursors` branch that computes the
merged (winner) selection and applies `setState` to the winner cursor: when
the two selections differ, the union range is taken, the direction comes
from the loser when it was the most recently added cursor (transferring
the last-added marker to the winner) and from the winner otherwise, and
the winner cursor is updated; equal selections leave everything unchanged.
Dereferencing a missing winner cursor is the crash case. -/
def CursorCollection.normalizeMergedCursor (ctx : CursorContext)
    (coll : CursorCollection) (looserIndex winnerIndex : Nat)
    (looserSelection winnerSelection : Selection) :
    Option (Selection × CursorCollection) :=
  if ¬(looserSelection.equalsSelection winnerSelection = true) then
    let resultingRange := looserSelection.plusRange winnerSelection.range
    let looserSelectionIsLTR : Bool := decide
      (looserSelection.selectionStartLineNumber = looserSelection.range.startLineNumber ∧
        looserSelection.selectionStartColumn = looserSelection.range.startColumn)
    let winnerSelectionIsLTR : Bool := decide
      (winnerSelection.selectionStartLineNumber = winnerSelection.range.startLineNumber ∧
        winnerSelection.selectionStartColumn = winnerSelection.range.startColumn)
    let dirAndLast : Bool × Int :=
      if (looserIndex : Int) = coll.lastAddedCursorIndex then
        (looserSelectionIsLTR, (winnerIndex : Int))
      else (winnerSelectionIsLTR, coll.lastAddedCursorIndex)
    let resultingSelection : Selection :=
      if dirAndLast.1 then
        ⟨resultingRange.startLineNumber, resultingRange.startColumn,
          resultingRange.endLineNumber, resultingRange.endColumn⟩
      else
        ⟨resultingRange.endLineNumber, resultingRange.endColumn,
          resultingRange.startLineNumber, resultingRange.startColumn⟩
    match coll.cursors.get? winnerIndex with
    | none => none
    | some w =>
      let resultingState := CursorState.fromModelSelection resultingSelection
      let cursors1 := coll.cursors.set winnerIndex
        (Cursor.setStateFn ctx w resultingState.modelState resultingState.viewState)
      some (resultingSelection, ⟨cursors1, dirAndLast.2⟩)
  else some (winnerSelection, coll)

/-- The merge loop of `CursorCollection.normalize`.  At each step the pair
at sorted positions `idx` and `idx + 1` is examined; when the merge
condition holds, the lower-original-index cursor wins, its selection grows
to the union (direction decided by the last-added rule), the loser is
removed (renumbering snapshot indices above it), and the same sorted
position is re-examined; otherwise the loop advances.  The source's local
`cursors` copy and `this.cursors` receive identical splices and share
their elements, so a single list models both. -/
def CursorCollection.normalizeLoop (ctx : CursorContext) (st : NormState)
    (idx : Nat) : Option NormState :=
  if h : idx + 1 < st.sorted.length then
    let dflt : Nat × Selection := (0, ⟨1, 1, 1, 1⟩)
    if ¬(ctx.cursorConfig.multiCursorMergeOverlapping = true) then
      CursorCollection.normalizeLoop ctx st (idx + 1)
    else
      let shouldMergeCursors : Bool := normalizeShouldMerge st idx
      if shouldMergeCursors then
        let winnerSortedCursorIndex := normalizeWinnerSorted st idx
        let looserSortedCursorIndex := normalizeLooserSorted st idx
        let looserIndex := (st.sorted.getD looserSortedCursorIndex dflt).1
        let winnerIndex := (st.sorted.getD winnerSortedCursorIndex dflt).1
        let looserSelection := (st.sorted.getD looserSortedCursorIndex dflt).2
        let winnerSelection := (st.sorted.getD winnerSortedCursorIndex dflt).2
        let merged : Option (Selection × CursorCollection) :=
          CursorCollection.normalizeMergedCursor ctx st.coll looserIndex winnerIndex
            looserSelection winnerSelection
        match merged with
        | none => none
        | some sc1 =>
          -- The snapshot write `sortedCursors[winner].selection = resulting`
          -- happens only in the unequal-selections branch of the source; in
          -- the equal branch the write below stores the entry's current value
          -- `(winnerIndex, winnerSelection)` back, leaving the list unchanged.
          let sorted1 := st.sorted.set winnerSortedCursorIndex (winnerIndex, sc1.1)
          let sorted2 := sorted1.map
            (fun scp => if scp.1 > looserIndex then (scp.1 - 1, scp.2) else scp)
          match sc1.2.removeSecondaryCursor ((looserIndex : Int) - 1) with
          | none => none
          | some coll2 =>
            let sorted3 := sorted2.eraseIdx looserSortedCursorIndex
            CursorCollection.normalizeLoop ctx
              ⟨coll2, sorted3, st.removedLog ++ [looserIndex]⟩ idx
      else CursorCollection.normalizeLoop ctx st (idx + 1)
  else some st
termination_by st.sorted.length - idx
decreasing_by
  all_goals first
    | omega
    | (unfold normalizeLooserSorted
       rw [List.length_eraseIdx_of_lt] <;>
         simp only [List.length_map, List.length_set] <;>
         first
           | omega
           | (split <;> omega))

/-- `CursorCollection.normalize` with the ghost removal log: a no-op with a
single cursor, otherwise the sorted snapshot is built and the merge loop
runs from sorted position 0. -/
def CursorCollection.normalizeAux (ctx : CursorContext)
    (coll : CursorCollection) : Option (CursorCollection × List Nat) :=
  if coll.cursors.length = 1 then some (coll, [])
  else
    let sortedCursors : List (Nat × Selection) :=
      (coll.cursors.map (fun c => c.modelState.selection)).enum
    let sorted := sortCmp
      (fun a b => Range.compareRangesUsingStarts a.2.range b.2.range) sortedCursors
    (CursorCollection.normalizeLoop ctx ⟨coll, sorted, []⟩ 0).map
      (fun st => (st.coll, st.removedLog))

/-- Production `CursorCollection.normalize`: the collection component of
`normalizeAux`. -/
def CursorCollection.normalize (ctx : CursorContext)
    (coll : CursorCollection) : Option CursorCollection :=
  (CursorCollection.normalizeAux ctx coll).map Prod.fst

/-- Identity text model fixture (a document in which every position and
range is already valid). -/
def idTextModel : TextModelFns := ⟨id, id⟩

/-- Identity view model fixture. -/
def idViewModel : ViewModelFns := ⟨id⟩

/-- Identity coordinates converter fixture (view coordinates coincide with
model coordinates). -/
def idConverter : ConverterFns := ⟨id, id, id, fun v _ => v, fun v _ => v⟩

/-- Base configuration fixture: merging enabled, tab stops on, indent and
tab size 4, language-defined auto-closing, pair-aware delete always, no
pairs registered, empty-selection clipboard on. -/
def baseConfig : CursorConfig :=
  ⟨true, true, 4, 4, AutoClosingStrategy.languageDefined,
    AutoClosingStrategy.languageDefined, AutoClosingEditStrategy.always,
    fun _ => none, true⟩

/-- Identity context fixture. -/
def idContext : CursorContext := ⟨idTextModel, idViewModel, idConverter, baseConfig⟩

/-- A one-line caret selection at the given coordinates. -/
def caretSel (l c : Int) : Selection := ⟨l, c, l, c⟩

/-- A cursor whose model selection is the given one (built by running
`setState` with a model-only state, as `normalize` itself does). -/
def cursorOf (s : Selection) : Cursor :=
  Cursor.setStateFn idContext ⟨Cursor.initialState, Cursor.initialState⟩
    (CursorState.fromModelSelection s).modelState none

def charLParen : Char := Char.ofNat 40

def charRParen : Char := Char.ofNat 41

/-- One-line document fixture containing exactly the text between
parentheses: the line is the two characters open-paren, close-paren. -/
def parenModel : SimpleModel :=
  ⟨fun _ => [charLParen, charRParen], 1, fun _ => 3, fun p => p⟩

/-- Configuration fixture with brackets auto-closing enabled, delete
policy `always`, and the parenthesis pair registered under its opening
character. -/
def parenConfig : CursorConfig :=
  ⟨true, true, 4, 4, AutoClosingStrategy.languageDefined,
    AutoClosingStrategy.languageDefined, AutoClosingEditStrategy.always,
    fun c => if c = charLParen then some [⟨charLParen, charRParen⟩] else none, true⟩

def charA : Char := Char.ofNat 97

/-- One-line document fixture: four spaces of indentation followed by the
letter a. -/
def indentModel : SimpleModel :=
  ⟨fun _ => [charSpace, charSpace, charSpace, charSpace, charA], 1,
    fun _ => 6, fun p => p⟩

/-!
Claim C6 — `deleteRight`: per-cursor spans, empty-span suppression, and
the undo-grouping flag.
-/
/-- The per-cursor span of `deleteRight`, as the spec describes it: a
non-empty selection deletes itself; a caret deletes from the position one
(grapheme-aware) step to its right back to the caret. -/
def DeleteOperations.deleteRightSpan (model : SimpleModel) (selection : Selection) : Range :=
  if selection.range.isEmpty then
    Range.make (model.moveRight selection.getPosition).lineNumber
      (model.moveRight selection.getPosition).column
      selection.getPosition.lineNumber selection.getPosition.column
  else selection.range

/-- A fresh cursor value (both states at document start) used as the
receiver of `setState` calls in concrete statements. -/
def cursorInit : Cursor := ⟨Cursor.initialState, Cursor.initialState⟩

/-- View model fixture that clamps columns to at most 4 (a normalization
that moves positions right of column 4). -/
def clampViewModel : ViewModelFns :=
  ⟨fun p => if 4 < p.column then ⟨p.lineNumber, 4⟩ else p⟩

/-- Context fixture with the clamping view model. -/
def clampContext : CursorContext := ⟨idTextModel, clampViewModel, idConverter, baseConfig⟩

/-- View state fixture: caret at column 9 with 5 leftover columns. -/
def clampedViewState : SingleCursorState :=
  ⟨⟨1, 1, 1, 1⟩, SelectionStartKind.Simple, 0, ⟨1, 9⟩, 5⟩

/-- The view-space selection-start range `_setState` derives when only a
model state is supplied: the converted start and end points of the model
selection-start range. -/
def Cursor.derivedViewSelectionStart (ctx : CursorContext) (ms : SingleCursorState) : Range :=
  Range.make
    (ctx.coordinatesConverter.convertModelPositionToViewPosition
      ⟨ms.selectionStart.startLineNumber, ms.selectionStart.startColumn⟩).lineNumber
    (ctx.coordinatesConverter.convertModelPositionToViewPosition
      ⟨ms.selectionStart.startLineNumber, ms.selectionStart.startColumn⟩).column
    (ctx.coordinatesConverter.convertModelPositionToViewPosition
      ⟨ms.selectionStart.endLineNumber, ms.selectionStart.endColumn⟩).lineNumber
    (ctx.coordinatesConverter.convertModelPositionToViewPosition
      ⟨ms.selectionStart.endLineNumber, ms.selectionStart.endColumn⟩).column

/-- A concrete valid document-space state used by the C5 witness. -/
def msC5 : SingleCursorState := ⟨⟨1, 2, 2, 3⟩, SelectionStartKind.Simple, 7, ⟨2, 3⟩, 9⟩

/-!
Sort order of `cut`.  The comparator the code passes to `sort` compares
one selection's START against the other's END.  On overlapping selections
(for example equal starts with different ends) this comparator is
inconsistent — each element of such a pair compares as strictly preceding
the other — so ECMAScript leaves the resulting order
implementation-defined and no processing order follows from the source.
On pairwise strictly disjoint (or equal) selections the comparator is
consistent and induces exactly the (start, end) order, and `cut` provably
processes the selections in that order.
-/
/-- The comparison the claim describes: start positions first and, for
equal starts, end positions — i.e. `compareRangesUsingStarts` on the
selections' ranges. -/
def selectionsCompareByStartThenEnd (a b : Selection) : Int :=
  Range.compareRangesUsingStarts a.range b.range

/-- Strict disjointness: the first selection ends strictly before the
second begins. -/
def Selection.strictlyBefore (a b : Selection) : Bool :=
  a.getEndPosition.isBefore b.getStartPosition

/-- Invariant of the `normalize` merge loop: the snapshot's original
indices are pairwise distinct and in bounds for the live cursor list, the
cursor list is non-empty, and every logged removal index is at least 1
(i.e. no removal ever touched the primary cursor). -/
def NormInv (st : NormState) : Prop :=
  (st.sorted.map Prod.fst).Nodup ∧
  (∀ p ∈ st.sorted, p.1 < st.coll.cursors.length) ∧
  1 ≤ st.coll.cursors.length ∧
  (∀ i ∈ st.removedLog, 1 ≤ i)

/-- Ghost-instrumented tail-removal loop of `_setSecondaryStates`: identical
removals, additionally logging the erased cursor index of each step. -/
def CursorCollection.removeSecondaryCursorsFromTailLog (coll : CursorCollection) :
    Nat → Option (CursorCollection × List Nat)
  | 0 => some (coll, [])
  | n + 1 =>
    match coll.removeSecondaryCursor ((coll.cursors.length : Int) - 2) with
    | none => none
    | some c =>
      (CursorCollection.removeSecondaryCursorsFromTailLog c n).map
        (fun p => (p.1, (coll.cursors.length - 1) :: p.2))

/-- Modelled from the spec: C1's merge condition on the start-sorted pair —
either selection is empty and the later selection's start is at-or-before
the earlier selection's end, or both are non-empty and the later
selection's start is strictly before the earlier selection's end. -/
def specC1MergeCondition (earlier later : Selection) : Prop :=
  ((later.isEmpty = true ∨ earlier.isEmpty = true) ∧
    later.getStartPosition.isBeforeOrEqual earlier.getEndPosition = true) ∨
  (later.isEmpty = false ∧ earlier.isEmpty = false ∧
    later.getStartPosition.isBefore earlier.getEndPosition = true)

/-- The spec's C1 example: two cursors with selections [1,1]-[1,5] and
[1,3]-[1,8] in a fresh identity context. -/
def exampleColl : CursorCollection :=
  ⟨[cursorOf ⟨1, 1, 1, 5⟩, cursorOf ⟨1, 3, 1, 8⟩], 0⟩

example : (Range.make 1 5 1 2) = ⟨1, 2, 1, 5⟩ := by decide

example : Position.isBefore ⟨1, 3⟩ ⟨1, 5⟩ = true := by decide

example : (Selection.mk 1 8 1 1).range = ⟨1, 1, 1, 8⟩ := by decide

example : Range.plusRange ⟨1, 1, 1, 5⟩ ⟨1, 3, 1, 8⟩ = ⟨1, 1, 1, 8⟩ := by decide

example : sortCmp (fun a b => a - b) [3, 1, 2] = ([1, 2, 3] : List Int) := by decide

/-!
Helper lemmas and concrete fixtures used by the claim theorems.
-/
/-- Feeding the cache the normalization of its own input makes the cached
validation agree with direct normalization. -/
theorem Cursor.validatePositionWithCache_norm (vm : ViewModelFns)
    (p cin : Position) :
    Cursor.validatePositionWithCache vm p cin (vm.normalizePosition cin) =
      vm.normalizePosition p := by
  unfold Cursor.validatePositionWithCache
  split
  · next h => rw [h]
  · rfl

/-- The cached view-state validation computes exactly the direct one. -/
theorem Cursor.validateViewState_eq_direct (vm : ViewModelFns)
    (vs : SingleCursorState) :
    Cursor.validateViewState vm vs = Cursor.validateViewStateDirect vm vs := by
  unfold Cursor.validateViewState Cursor.validateViewStateDirect
  simp only [Cursor.validatePositionWithCache_norm]

/-!
Claim C9 — the one-entry position cache in view-state validation is an
optimization with identical results to direct re-validation.
-/
/-- C9: for every view model (its `normalizePosition` being a function is
the determinism the claim assumes) and every view state, the cached
`_validateViewState` returns exactly the state computed by the variant
that calls `normalizePosition` directly for the primary position, the
selection-start position and the selection-end position. -/
theorem claim_C9_cached_view_validation_equals_direct
    (vm : ViewModelFns) (vs : SingleCursorState) :
    Cursor.validateViewState vm vs = Cursor.validateViewStateDirect vm vs :=
  Cursor.validateViewState_eq_direct vm vs

/-!
Claim C7 — auto-closing-pair delete: whenever `isAutoClosingPairDelete`
holds, `deleteLeft` deletes the two-character span around every caret and
starts a fresh undo boundary.
-/
/-- C7: whenever `isAutoClosingPairDelete` answers true for the given
selections, `deleteLeft` returns `shouldPushStackElementBefore = true` and,
for every cursor, a command deleting exactly the span from `column - 1` to
`column + 1` on the caret's line. -/
theorem claim_C7_auto_closing_pair_delete
    (prev : EditOperationType) (config : CursorConfig) (model : SimpleModel)
    (selections : List Selection) (autoClosedCharacters : List Range)
    (h : DeleteOperations.isAutoClosingPairDelete config.autoClosingDelete
      config.autoClosingBrackets config.autoClosingQuotes
      config.autoClosingPairsOpenByEnd model selections autoClosedCharacters = true) :
    DeleteOperations.deleteLeft prev config model selections autoClosedCharacters =
      (true, selections.map (fun s =>
        some ⟨Range.make s.getPosition.lineNumber (s.getPosition.column - 1)
          s.getPosition.lineNumber (s.getPosition.column + 1), []⟩)) := by
  unfold DeleteOperations.deleteLeft
  rw [if_pos h]
  unfold DeleteOperations.runAutoClosingPairDelete
  simp [List.map_map]

/-- C7 witness: for the single caret between the characters of the line
`()` with brackets auto-closing enabled and delete policy `always`, the
predicate holds and `deleteLeft` produces the single command deleting both
characters, i.e. the span from column 1 to column 3. -/
theorem claim_C7_auto_closing_pair_delete_witness :
    DeleteOperations.isAutoClosingPairDelete parenConfig.autoClosingDelete
      parenConfig.autoClosingBrackets parenConfig.autoClosingQuotes
      parenConfig.autoClosingPairsOpenByEnd parenModel [caretSel 1 2] [] = true ∧
    DeleteOperations.deleteLeft EditOperationType.Other parenConfig parenModel
      [caretSel 1 2] [] = (true, [some ⟨⟨1, 1, 1, 3⟩, []⟩]) := by
  refine ⟨by decide, ?_⟩
  rw [claim_C7_auto_closing_pair_delete EditOperationType.Other parenConfig
    parenModel [caretSel 1 2] [] (by decide)]
  decide

/-!
Claim C8 — backspace inside leading indentation with tab stops enabled
deletes back to the previous indent stop.
-/
/-- `firstNonWhitespaceIndex` is either the not-found sentinel or a
non-negative index. -/
theorem firstNonWhitespaceIndexFn_neg_or_nonneg (l : List Char) :
    firstNonWhitespaceIndexFn l = -1 ∨ 0 ≤ firstNonWhitespaceIndexFn l := by
  induction l with
  | nil => left; rfl
  | cons c t ih =>
    by_cases hc : ¬(c = charSpace) ∧ ¬(c = charTab)
    · right
      simp only [firstNonWhitespaceIndexFn, if_pos hc]
      omega
    · simp only [firstNonWhitespaceIndexFn, if_neg hc]
      rcases ih with h | h
      · left; simp [h]
      · rw [if_neg (by omega)]
        right; omega

/-- A leading space shifts the first-non-whitespace index by one (or keeps
the not-found sentinel). -/
theorem firstNonWhitespaceIndexFn_space_cons (t : List Char) :
    firstNonWhitespaceIndexFn (charSpace :: t) =
      if firstNonWhitespaceIndexFn t = -1 then -1
      else firstNonWhitespaceIndexFn t + 1 := by
  simp [firstNonWhitespaceIndexFn]

/-- With four leading spaces, the first non-whitespace index is the
sentinel or at least 4. -/
theorem firstNonWhitespaceIndexFn_four_spaces (rest : List Char) :
    firstNonWhitespaceIndexFn (charSpace :: charSpace :: charSpace :: charSpace :: rest) = -1 ∨
      4 ≤ firstNonWhitespaceIndexFn (charSpace :: charSpace :: charSpace :: charSpace :: rest) := by
  rcases firstNonWhitespaceIndexFn_neg_or_nonneg rest with h | h
  · left
    simp [firstNonWhitespaceIndexFn_space_cons, h]
  · right
    have e1 : firstNonWhitespaceIndexFn (charSpace :: rest) =
        firstNonWhitespaceIndexFn rest + 1 := by
      rw [firstNonWhitespaceIndexFn_space_cons, if_neg (by omega)]
    have e2 : firstNonWhitespaceIndexFn (charSpace :: charSpace :: rest) =
        firstNonWhitespaceIndexFn rest + 2 := by
      rw [firstNonWhitespaceIndexFn_space_cons, e1, if_neg (by omega)]
      omega
    have e3 : firstNonWhitespaceIndexFn (charSpace :: charSpace :: charSpace :: rest) =
        firstNonWhitespaceIndexFn rest + 3 := by
      rw [firstNonWhitespaceIndexFn_space_cons, e2, if_neg (by omega)]
      omega
    rw [firstNonWhitespaceIndexFn_space_cons, e3, if_neg (by omega)]
    omega

/-- Walking zero further characters leaves the visible column unchanged. -/
theorem visibleColumnFromColumnAux_zero (ts : Int) (l : List Char) (n vis : Int)
    (h : n ≤ 0) : visibleColumnFromColumnAux ts l n vis = vis := by
  cases l with
  | nil => rfl
  | cons c t => simp [visibleColumnFromColumnAux, if_pos h]

/-- Four spaces before the caret give visible column 4. -/
theorem visibleColumnFromColumnAux_four_spaces (ts : Int) (rest : List Char) :
    visibleColumnFromColumnAux ts
      (charSpace :: charSpace :: charSpace :: charSpace :: rest) 4 0 = 4 := by
  have hst : ¬(charSpace = charTab) := by decide
  simp only [visibleColumnFromColumnAux, if_neg hst]
  norm_num
  exact visibleColumnFromColumnAux_zero ts rest 0 4 le_rfl

/-- Visible-column target 0 is reached at column 1 immediately. -/
theorem columnFromVisibleColumnAux_zero (ts : Int) (l : List Char) :
    columnFromVisibleColumnAux ts 0 l 1 0 = 1 := by
  cases l with
  | nil => rfl
  | cons c t => simp [columnFromVisibleColumnAux]

/-- C8: with tab-stop-aware deletion enabled, indent size 4, and an empty
selection at column 5 of a line whose first four characters are spaces,
`getDeleteRange` (the non-pair branch of `deleteLeft`) computes the span
covering columns 1 through 5 — one whole indent stop. -/
theorem claim_C8_backspace_deletes_indent_stop
    (model : SimpleModel) (config : CursorConfig) (ln : Int) (rest : List Char)
    (hTab : config.useTabStops = true) (hIndent : config.indentSize = 4)
    (hLine : model.getLineContent ln =
      charSpace :: charSpace :: charSpace :: charSpace :: rest) :
    DeleteOperations.getDeleteRange (caretSel ln 5) model config = ⟨ln, 1, ln, 5⟩ := by
  have hEmpty : (caretSel ln 5).isEmpty = true := by
    simp [caretSel, Selection.isEmpty, Selection.range, Range.make, Range.isEmpty]
  have hPos : (caretSel ln 5).getPosition = ⟨ln, 5⟩ := rfl
  unfold DeleteOperations.getDeleteRange
  rw [if_neg (by simp [hEmpty])]
  rw [hPos]
  rw [if_pos (by exact ⟨hTab, by norm_num⟩)]
  rw [hLine]
  have hIndentCol : (5 : Int) ≤
      (if firstNonWhitespaceIndexFn
          (charSpace :: charSpace :: charSpace :: charSpace :: rest) = -1 then
        ((charSpace :: charSpace :: charSpace :: charSpace :: rest).length : Int) + 1
      else firstNonWhitespaceIndexFn
          (charSpace :: charSpace :: charSpace :: charSpace :: rest) + 1) := by
    rcases firstNonWhitespaceIndexFn_four_spaces rest with h | h
    · rw [if_pos h]
      simp only [List.length_cons]
      push_cast
      omega
    · rw [if_neg (by omega)]
      omega
  rw [if_pos hIndentCol]
  have hVis : visibleColumnFromColumn config model ⟨ln, 5⟩ = 4 := by
    unfold visibleColumnFromColumn
    rw [hLine]
    norm_num
    exact visibleColumnFromColumnAux_four_spaces config.tabSize rest
  rw [hVis, hIndent]
  have hPrev : prevIndentTabStop 4 4 = 0 := by decide
  have hCol : columnFromVisibleColumn config model ln 0 = 1 := by
    unfold columnFromVisibleColumn
    rw [hLine]
    exact columnFromVisibleColumnAux_zero config.tabSize _
  simp only [hPrev, hCol, Range.make]
  norm_num

/-- C8 witness: on the concrete line of four spaces plus a letter, with the
base configuration (tab stops on, indent size 4), the delete span for a
caret at column 5 is columns 1 through 5. -/
theorem claim_C8_backspace_deletes_indent_stop_witness :
    baseConfig.useTabStops = true ∧ baseConfig.indentSize = 4 ∧
    DeleteOperations.getDeleteRange (caretSel 1 5) indentModel baseConfig =
      ⟨1, 1, 1, 5⟩ :=
  ⟨rfl, rfl, claim_C8_backspace_deletes_indent_stop indentModel baseConfig 1
    [charA] rfl rfl rfl⟩

/-- Closed form of the `deleteRight` loop: the final flag is the initial
flag or the existence of a multi-line span, and the commands are the spans
(suppressed when empty), in order. -/
theorem DeleteOperations.deleteRightLoop_spec (model : SimpleModel)
    (sels : List Selection) (flag : Bool) :
    DeleteOperations.deleteRightLoop model sels flag =
      ((flag || sels.any (fun s =>
          decide ((DeleteOperations.deleteRightSpan model s).startLineNumber ≠
            (DeleteOperations.deleteRightSpan model s).endLineNumber))),
        sels.map (fun s =>
          if (DeleteOperations.deleteRightSpan model s).isEmpty then none
          else some ⟨DeleteOperations.deleteRightSpan model s, []⟩)) := by
  induction sels generalizing flag with
  | nil => simp [DeleteOperations.deleteRightLoop]
  | cons s rest ih =>
    have hspan : (if s.range.isEmpty then
        Range.make (model.moveRight s.getPosition).lineNumber
          (model.moveRight s.getPosition).column
          s.getPosition.lineNumber s.getPosition.column
      else s.range) = DeleteOperations.deleteRightSpan model s := rfl
    simp only [DeleteOperations.deleteRightLoop, hspan]
    by_cases he : (DeleteOperations.deleteRightSpan model s).isEmpty = true
    · have hline : (DeleteOperations.deleteRightSpan model s).startLineNumber =
          (DeleteOperations.deleteRightSpan model s).endLineNumber := by
        have := of_decide_eq_true he
        exact this.1
      rw [if_pos he, ih flag]
      simp [he, hline]
    · rw [if_neg he, ih]
      by_cases hml : (DeleteOperations.deleteRightSpan model s).startLineNumber ≠
          (DeleteOperations.deleteRightSpan model s).endLineNumber
      · simp [he, hml]
      · simp [he, not_not.mp hml]

/-- C6: for every selection list, previous operation kind, configuration
and model (hence for every grapheme-aware right stepper), `deleteRight`
yields per-cursor commands that delete the span from the caret one step
right (or the selection itself), suppressing the command when the span is
empty; and the returned `shouldPushStackElementBefore` flag is true
exactly when the previous operation was not a forward-delete or some
computed span covers more than one line. -/
theorem claim_C6_delete_right_spans_and_grouping
    (prev : EditOperationType) (config : CursorConfig) (model : SimpleModel)
    (selections : List Selection) :
    ((DeleteOperations.deleteRight prev config model selections).1 = true ↔
      (prev ≠ EditOperationType.DeletingRight ∨
        ∃ s ∈ selections,
          (DeleteOperations.deleteRightSpan model s).startLineNumber ≠
            (DeleteOperations.deleteRightSpan model s).endLineNumber)) ∧
    (DeleteOperations.deleteRight prev config model selections).2 =
      selections.map (fun s =>
        if (DeleteOperations.deleteRightSpan model s).isEmpty then none
        else some ⟨DeleteOperations.deleteRightSpan model s, []⟩) := by
  unfold DeleteOperations.deleteRight
  rw [DeleteOperations.deleteRightLoop_spec]
  constructor
  · simp [List.any_eq_true]
  · rfl

/-- Sanity example for C6: a caret at the end of a one-line document (the
right step is a fixpoint) produces no command, while the caret before the
last character deletes one character. -/
example :
    DeleteOperations.deleteRight EditOperationType.DeletingRight baseConfig
      ⟨fun _ => [charA], 1, fun _ => 2, fun p => if p.column < 2 then ⟨p.lineNumber, p.column + 1⟩ else p⟩
      [caretSel 1 2, caretSel 1 1] =
    (false, [none, some ⟨⟨1, 1, 1, 2⟩, []⟩]) := by decide

/-!
Claim C4 — leftover-columns behavior across validation.  The model-state
path resets leftover columns to zero when validation moves the
range/position; the view-state path instead adjusts them by the column
displacement, which refutes the claim's "resets to zero on both paths".
-/
/-- View-state validation always produces leftover columns equal to the
original plus the caret's column displacement under normalization (zero
displacement on the fast path), and the same for the selection-start
field. -/
theorem Cursor.validateViewState_leftover (vm : ViewModelFns)
    (vs : SingleCursorState) :
    (Cursor.validateViewState vm vs).leftoverVisibleColumns =
      vs.leftoverVisibleColumns + vs.position.column -
        (vm.normalizePosition vs.position).column ∧
    (Cursor.validateViewState vm vs).selectionStartLeftoverVisibleColumns =
      vs.selectionStartLeftoverVisibleColumns +
        vs.selectionStart.getStartPosition.column -
        (vm.normalizePosition vs.selectionStart.getStartPosition).column := by
  rw [Cursor.validateViewState_eq_direct]
  have hz : Cursor.validateViewStateDirect vm vs =
      (if vs.position = vm.normalizePosition vs.position ∧
          vs.selectionStart.getStartPosition =
            vm.normalizePosition vs.selectionStart.getStartPosition ∧
          vs.selectionStart.getEndPosition =
            vm.normalizePosition vs.selectionStart.getEndPosition then vs
       else
        ⟨Range.fromPositions (vm.normalizePosition vs.selectionStart.getStartPosition)
            (vm.normalizePosition vs.selectionStart.getEndPosition),
          vs.selectionStartKind,
          vs.selectionStartLeftoverVisibleColumns +
            vs.selectionStart.getStartPosition.column -
            (vm.normalizePosition vs.selectionStart.getStartPosition).column,
          vm.normalizePosition vs.position,
          vs.leftoverVisibleColumns + vs.position.column -
            (vm.normalizePosition vs.position).column⟩) := rfl
  rw [hz]
  split
  · next h =>
    obtain ⟨h1, h2, _⟩ := h
    constructor
    · rw [← h1]
      omega
    · rw [← h2]
      omega
  · exact ⟨rfl, rfl⟩

/-- C4 counterexample: validation changes the caret position (column 9
clamps to 4), yet the resulting cursor's leftover columns are 10 — the
original 5 plus the displacement 5 — not the 0 the claim requires on the
view-state validation path. -/
theorem claim_C4_counterexample_view_path_not_reset :
    clampContext.viewModel.normalizePosition clampedViewState.position ≠
      clampedViewState.position ∧
    (Cursor.setStateFn clampContext cursorInit none
      (some clampedViewState)).viewState.leftoverVisibleColumns = 10 ∧
    (Cursor.setStateFn clampContext cursorInit none
      (some clampedViewState)).modelState.leftoverVisibleColumns = 10 ∧
    ¬((Cursor.setStateFn clampContext cursorInit none
      (some clampedViewState)).viewState.leftoverVisibleColumns = 0) := by
  decide

/-- C4 amended: in `setState`, on the model-state validation path each
leftover-columns field of the resulting cursor equals the supplied one
when validation leaves the corresponding range/position unchanged and is
reset to zero when validation changes it (the derived view state carrying
the model state's values); on the view-state validation path the leftover
fields are not reset but adjusted by the column displacement of
normalization — original column minus validated column — preserving the
intended visible column. -/
theorem claim_C4_amended_leftover_columns (ctx : CursorContext) (c : Cursor)
    (msIn vsIn : SingleCursorState) :
    ((ctx.model.validateRange msIn.selectionStart = msIn.selectionStart →
        (Cursor.setStateFn ctx c (some msIn) none).modelState.selectionStartLeftoverVisibleColumns =
          msIn.selectionStartLeftoverVisibleColumns) ∧
      (ctx.model.validateRange msIn.selectionStart ≠ msIn.selectionStart →
        (Cursor.setStateFn ctx c (some msIn) none).modelState.selectionStartLeftoverVisibleColumns = 0) ∧
      (ctx.model.validatePosition msIn.position = msIn.position →
        (Cursor.setStateFn ctx c (some msIn) none).modelState.leftoverVisibleColumns =
          msIn.leftoverVisibleColumns) ∧
      (ctx.model.validatePosition msIn.position ≠ msIn.position →
        (Cursor.setStateFn ctx c (some msIn) none).modelState.leftoverVisibleColumns = 0) ∧
      (Cursor.setStateFn ctx c (some msIn) none).viewState.leftoverVisibleColumns =
        (Cursor.setStateFn ctx c (some msIn) none).modelState.leftoverVisibleColumns ∧
      (Cursor.setStateFn ctx c (some msIn) none).viewState.selectionStartLeftoverVisibleColumns =
        (Cursor.setStateFn ctx c (some msIn) none).modelState.selectionStartLeftoverVisibleColumns) ∧
    ((Cursor.setStateFn ctx c none (some vsIn)).modelState.leftoverVisibleColumns =
        vsIn.leftoverVisibleColumns + vsIn.position.column -
          (ctx.viewModel.normalizePosition vsIn.position).column ∧
      (Cursor.setStateFn ctx c none (some vsIn)).modelState.selectionStartLeftoverVisibleColumns =
        vsIn.selectionStartLeftoverVisibleColumns +
          vsIn.selectionStart.getStartPosition.column -
          (ctx.viewModel.normalizePosition vsIn.selectionStart.getStartPosition).column ∧
      (Cursor.setStateFn ctx c none (some vsIn)).viewState.leftoverVisibleColumns =
        (Cursor.setStateFn ctx c none (some vsIn)).modelState.leftoverVisibleColumns) := by
  have hms : (Cursor.setStateFn ctx c (some msIn) none).modelState =
      ⟨ctx.model.validateRange msIn.selectionStart, msIn.selectionStartKind,
        (if msIn.selectionStart = ctx.model.validateRange msIn.selectionStart then
          msIn.selectionStartLeftoverVisibleColumns else 0),
        ctx.model.validatePosition msIn.position,
        (if msIn.position = ctx.model.validatePosition msIn.position then
          msIn.leftoverVisibleColumns else 0)⟩ := rfl
  refine ⟨⟨?_, ?_, ?_, ?_, rfl, rfl⟩, ?_, ?_, rfl⟩
  · intro h
    rw [hms]
    simp [h]
  · intro h
    rw [hms]
    simp only []
    rw [if_neg (fun hh => h hh.symm)]
  · intro h
    rw [hms]
    simp [h]
  · intro h
    rw [hms]
    simp only []
    rw [if_neg (fun hh => h hh.symm)]
  · have h2 : (Cursor.setStateFn ctx c none (some vsIn)).modelState.leftoverVisibleColumns =
        (Cursor.validateViewState ctx.viewModel vsIn).leftoverVisibleColumns := rfl
    rw [h2, (Cursor.validateViewState_leftover ctx.viewModel vsIn).1]
  · have h2 : (Cursor.setStateFn ctx c none (some vsIn)).modelState.selectionStartLeftoverVisibleColumns =
        (Cursor.validateViewState ctx.viewModel vsIn).selectionStartLeftoverVisibleColumns := rfl
    rw [h2, (Cursor.validateViewState_leftover ctx.viewModel vsIn).2]

/-- C4 amended witness: with the clamping fixture, the model path resets a
moved position's leftover columns to zero while the view path adds the
displacement. -/
theorem claim_C4_amended_leftover_columns_witness :
    idContext.model.validatePosition clampedViewState.position = clampedViewState.position ∧
    clampContext.viewModel.normalizePosition clampedViewState.position ≠ clampedViewState.position ∧
    (Cursor.setStateFn idContext cursorInit (some clampedViewState) none).modelState.leftoverVisibleColumns = 5 ∧
    (Cursor.setStateFn clampContext cursorInit none (some clampedViewState)).modelState.leftoverVisibleColumns = 10 := by
  refine ⟨by decide, by decide, ?_, ?_⟩
  · exact ((claim_C4_amended_leftover_columns idContext cursorInit
      clampedViewState clampedViewState).1.2.2.1 (by decide))
  · rw [(claim_C4_amended_leftover_columns clampContext cursorInit
      clampedViewState clampedViewState).2.1]
    decide

/-!
Claim C5 — round trip: deriving the view state from a valid model state
and deriving the model state back yields the original state, when the
document, view model and converter are mutually consistent on the
positions involved.
-/
/-- Unfolding equation for the direct view-state validation. -/
theorem Cursor.validateViewStateDirect_eq (vm : ViewModelFns) (vs : SingleCursorState) :
    Cursor.validateViewStateDirect vm vs =
      (if vs.position = vm.normalizePosition vs.position ∧
          vs.selectionStart.getStartPosition =
            vm.normalizePosition vs.selectionStart.getStartPosition ∧
          vs.selectionStart.getEndPosition =
            vm.normalizePosition vs.selectionStart.getEndPosition then vs
       else
        ⟨Range.fromPositions (vm.normalizePosition vs.selectionStart.getStartPosition)
            (vm.normalizePosition vs.selectionStart.getEndPosition),
          vs.selectionStartKind,
          vs.selectionStartLeftoverVisibleColumns +
            vs.selectionStart.getStartPosition.column -
            (vm.normalizePosition vs.selectionStart.getStartPosition).column,
          vm.normalizePosition vs.position,
          vs.leftoverVisibleColumns + vs.position.column -
            (vm.normalizePosition vs.position).column⟩) := rfl

/-- A view state all of whose positions are fixed by normalization is
returned unchanged by view-state validation. -/
theorem Cursor.validateViewState_fixed (vm : ViewModelFns) (vs : SingleCursorState)
    (hp : vm.normalizePosition vs.position = vs.position)
    (hs : vm.normalizePosition vs.selectionStart.getStartPosition =
      vs.selectionStart.getStartPosition)
    (he : vm.normalizePosition vs.selectionStart.getEndPosition =
      vs.selectionStart.getEndPosition) :
    Cursor.validateViewState vm vs = vs := by
  rw [Cursor.validateViewState_eq_direct, Cursor.validateViewStateDirect_eq,
    if_pos ⟨hp.symm, hs.symm, he.symm⟩]

/-- The model state `_setState` computes when only a (view-validated fixed
point) view state is supplied: converted and validated selection start and
position, leftover columns carried over. -/
theorem Cursor.setStateFn_view_only (ctx : CursorContext) (c : Cursor)
    (vs : SingleCursorState)
    (hfix : Cursor.validateViewState ctx.viewModel vs = vs) :
    (Cursor.setStateFn ctx c none (some vs)).modelState =
      ⟨ctx.model.validateRange
          (ctx.coordinatesConverter.convertViewRangeToModelRange vs.selectionStart),
        vs.selectionStartKind, vs.selectionStartLeftoverVisibleColumns,
        ctx.model.validatePosition
          (ctx.coordinatesConverter.convertViewPositionToModelPosition vs.position),
        vs.leftoverVisibleColumns⟩ := by
  unfold Cursor.setStateFn
  simp only [Option.map_some', hfix]

/-- C5: for a document-space state that the document validates unchanged
(h1, h2), whose derived view positions the view model fixes (h3–h5), and
whose conversions invert (h6, h7) — i.e. the document and view are
unchanged — deriving the view state via `setState` with only the model
state and then deriving the model state back via `setState` with only that
view state returns the original document-space state. -/
theorem claim_C5_model_view_round_trip (ctx : CursorContext) (c c' : Cursor)
    (ms : SingleCursorState)
    (h1 : ctx.model.validateRange ms.selectionStart = ms.selectionStart)
    (h2 : ctx.model.validatePosition ms.position = ms.position)
    (h3 : ctx.viewModel.normalizePosition
        (ctx.coordinatesConverter.convertModelPositionToViewPosition ms.position) =
      ctx.coordinatesConverter.convertModelPositionToViewPosition ms.position)
    (h4 : ctx.viewModel.normalizePosition
        (Cursor.derivedViewSelectionStart ctx ms).getStartPosition =
      (Cursor.derivedViewSelectionStart ctx ms).getStartPosition)
    (h5 : ctx.viewModel.normalizePosition
        (Cursor.derivedViewSelectionStart ctx ms).getEndPosition =
      (Cursor.derivedViewSelectionStart ctx ms).getEndPosition)
    (h6 : ctx.coordinatesConverter.convertViewRangeToModelRange
        (Cursor.derivedViewSelectionStart ctx ms) = ms.selectionStart)
    (h7 : ctx.coordinatesConverter.convertViewPositionToModelPosition
        (ctx.coordinatesConverter.convertModelPositionToViewPosition ms.position) =
      ms.position) :
    (Cursor.setStateFn ctx c' none
      (some (Cursor.setStateFn ctx c (some ms) none).viewState)).modelState = ms := by
  obtain ⟨ss, kind, ssl, pos, lv⟩ := ms
  simp only [SingleCursorState.selectionStart, SingleCursorState.position] at h1 h2 h3 h4 h5 h6 h7
  have hA0 : (Cursor.setStateFn ctx c (some ⟨ss, kind, ssl, pos, lv⟩) none).viewState =
      ⟨Range.make
          (ctx.coordinatesConverter.convertModelPositionToViewPosition
            ⟨(ctx.model.validateRange ss).startLineNumber,
              (ctx.model.validateRange ss).startColumn⟩).lineNumber
          (ctx.coordinatesConverter.convertModelPositionToViewPosition
            ⟨(ctx.model.validateRange ss).startLineNumber,
              (ctx.model.validateRange ss).startColumn⟩).column
          (ctx.coordinatesConverter.convertModelPositionToViewPosition
            ⟨(ctx.model.validateRange ss).endLineNumber,
              (ctx.model.validateRange ss).endColumn⟩).lineNumber
          (ctx.coordinatesConverter.convertModelPositionToViewPosition
            ⟨(ctx.model.validateRange ss).endLineNumber,
              (ctx.model.validateRange ss).endColumn⟩).column,
        kind,
        (if ss = ctx.model.validateRange ss then ssl else 0),
        ctx.coordinatesConverter.convertModelPositionToViewPosition
          (ctx.model.validatePosition pos),
        (if pos = ctx.model.validatePosition pos then lv else 0)⟩ := rfl
  have hA : (Cursor.setStateFn ctx c (some ⟨ss, kind, ssl, pos, lv⟩) none).viewState =
      ⟨Cursor.derivedViewSelectionStart ctx ⟨ss, kind, ssl, pos, lv⟩, kind, ssl,
        ctx.coordinatesConverter.convertModelPositionToViewPosition pos, lv⟩ := by
    rw [hA0, h1, h2]
    simp [Cursor.derivedViewSelectionStart]
  rw [hA]
  rw [Cursor.setStateFn_view_only ctx c' _
    (Cursor.validateViewState_fixed ctx.viewModel _ h3 h4 h5)]
  simp only []
  rw [h6, h1, h7, h2]

/-- C5 witness: with the identity document/view/converter fixture the
hypotheses hold and the round trip returns the original state. -/
theorem claim_C5_model_view_round_trip_witness :
    idContext.model.validateRange msC5.selectionStart = msC5.selectionStart ∧
    (Cursor.setStateFn idContext cursorInit none
      (some (Cursor.setStateFn idContext cursorInit (some msC5) none).viewState)).modelState = msC5 :=
  ⟨by decide, claim_C5_model_view_round_trip idContext cursorInit cursorInit msC5
    (by decide) (by decide) (by decide) (by decide) (by decide) (by decide) (by decide)⟩

/-- Arithmetic characterization of the strict position order. -/
theorem Position.isBefore_iff (a b : Position) :
    a.isBefore b = true ↔
      (a.lineNumber < b.lineNumber ∨
        (a.lineNumber = b.lineNumber ∧ a.column < b.column)) := by
  unfold Position.isBefore
  split_ifs <;> simp <;> omega

/-- Arithmetic characterization of a positive position comparison. -/
theorem Position.compare_pos_iff (a b : Position) :
    Position.compare a b > 0 ↔
      (b.lineNumber < a.lineNumber ∨
        (b.lineNumber = a.lineNumber ∧ b.column < a.column)) := by
  unfold Position.compare
  split_ifs <;> omega

/-- Arithmetic characterization of a positive range comparison by starts. -/
theorem Range.compareRangesUsingStarts_pos_iff (a b : Range) :
    Range.compareRangesUsingStarts a b > 0 ↔
      (b.startLineNumber < a.startLineNumber ∨
        (b.startLineNumber = a.startLineNumber ∧
          (b.startColumn < a.startColumn ∨
            (b.startColumn = a.startColumn ∧
              (b.endLineNumber < a.endLineNumber ∨
                (b.endLineNumber = a.endLineNumber ∧ b.endColumn < a.endColumn)))))) := by
  unfold Range.compareRangesUsingStarts
  split_ifs <;> omega

/-- A range built by the constructor has its start at or before its end. -/
theorem Range.make_start_le_end (sl sc el ec : Int) :
    (Range.make sl sc el ec).startLineNumber < (Range.make sl sc el ec).endLineNumber ∨
      ((Range.make sl sc el ec).startLineNumber = (Range.make sl sc el ec).endLineNumber ∧
        (Range.make sl sc el ec).startColumn ≤ (Range.make sl sc el ec).endColumn) := by
  unfold Range.make
  split_ifs with h <;> dsimp only <;> omega

/-- On pairwise disjoint-or-equal selections the code's cut comparator and
the claim's (start, end) comparator induce the same strict "comes later"
relation. -/
theorem cutSelectionsCompare_agree (a b : Selection)
    (h : Selection.strictlyBefore a b = true ∨ Selection.strictlyBefore b a = true ∨ a = b) :
    (DeleteOperations.cutSelectionsCompare a b > 0 ↔
      selectionsCompareByStartThenEnd a b > 0) := by
  have hwa := Range.make_start_le_end a.selectionStartLineNumber a.selectionStartColumn
    a.positionLineNumber a.positionColumn
  have hwb := Range.make_start_le_end b.selectionStartLineNumber b.selectionStartColumn
    b.positionLineNumber b.positionColumn
  rcases h with h | h | h
  · unfold Selection.strictlyBefore at h
    rw [Position.isBefore_iff] at h
    unfold DeleteOperations.cutSelectionsCompare selectionsCompareByStartThenEnd
    rw [Position.compare_pos_iff, Range.compareRangesUsingStarts_pos_iff]
    unfold Selection.getStartPosition Selection.getEndPosition
      Range.getStartPosition Range.getEndPosition Selection.range at h ⊢
    dsimp only at h ⊢
    omega
  · unfold Selection.strictlyBefore at h
    rw [Position.isBefore_iff] at h
    unfold DeleteOperations.cutSelectionsCompare selectionsCompareByStartThenEnd
    rw [Position.compare_pos_iff, Range.compareRangesUsingStarts_pos_iff]
    unfold Selection.getStartPosition Selection.getEndPosition
      Range.getStartPosition Range.getEndPosition Selection.range at h ⊢
    dsimp only at h ⊢
    omega
  · subst h
    unfold DeleteOperations.cutSelectionsCompare selectionsCompareByStartThenEnd
    rw [Position.compare_pos_iff, Range.compareRangesUsingStarts_pos_iff]
    unfold Selection.getStartPosition Selection.getEndPosition
      Range.getStartPosition Range.getEndPosition Selection.range
    dsimp only
    omega

/-- Membership in an insertion step comes from the inserted element or the
original list. -/
theorem mem_insertCmp {α : Type} (cmp : α → α → Int) (x : α) (l : List α) (y : α)
    (h : y ∈ insertCmp cmp x l) : y = x ∨ y ∈ l := by
  induction l with
  | nil =>
    simp [insertCmp] at h
    exact Or.inl h
  | cons z zs ih =>
    unfold insertCmp at h
    split at h
    · rcases List.mem_cons.mp h with h | h
      · exact Or.inl h
      · exact Or.inr h
    · rcases List.mem_cons.mp h with h | h
      · rw [h]
        exact Or.inr (List.mem_cons_self z zs)
      · rcases ih h with h' | h'
        · exact Or.inl h'
        · exact Or.inr (List.mem_cons_of_mem z h')

/-- Two comparators agreeing on "strictly greater" against `x` along the
list produce the same insertion. -/
theorem insertCmp_congr {α : Type} (cmp1 cmp2 : α → α → Int) (x : α) (l : List α)
    (h : ∀ y ∈ l, (cmp1 y x > 0 ↔ cmp2 y x > 0)) :
    insertCmp cmp1 x l = insertCmp cmp2 x l := by
  induction l with
  | nil => rfl
  | cons z zs ih =>
    unfold insertCmp
    have hz := h z (List.mem_cons_self z zs)
    by_cases h1 : cmp1 z x > 0
    · rw [if_pos h1, if_pos (hz.mp h1)]
    · rw [if_neg h1, if_neg (fun hc => h1 (hz.mpr hc)),
        ih (fun y hy => h y (List.mem_cons_of_mem z hy))]

/-- Two comparators agreeing pairwise on the elements involved produce the
same stable sort. -/
theorem sortCmp_congr_aux {α : Type} (cmp1 cmp2 : α → α → Int) (l acc : List α)
    (hacc : ∀ x ∈ l, ∀ y ∈ acc, (cmp1 y x > 0 ↔ cmp2 y x > 0))
    (hl : ∀ x ∈ l, ∀ y ∈ l, (cmp1 y x > 0 ↔ cmp2 y x > 0)) :
    List.foldl (fun a x => insertCmp cmp1 x a) acc l =
      List.foldl (fun a x => insertCmp cmp2 x a) acc l := by
  induction l generalizing acc with
  | nil => rfl
  | cons x xs ih =>
    simp only [List.foldl_cons]
    rw [insertCmp_congr cmp1 cmp2 x acc
      (fun y hy => hacc x (List.mem_cons_self x xs) y hy)]
    exact ih (insertCmp cmp2 x acc)
      (fun z hz y hy => by
        rcases mem_insertCmp cmp2 x acc y hy with h' | h'
        · rw [h']
          exact hl z (List.mem_cons_of_mem x hz) x (List.mem_cons_self x xs)
        · exact hacc z (List.mem_cons_of_mem x hz) y h')
      (fun z hz y hy =>
        hl z (List.mem_cons_of_mem x hz) y (List.mem_cons_of_mem x hy))

/-- `sortCmp` congruence for comparators agreeing on the list's pairs. -/
theorem sortCmp_congr {α : Type} (cmp1 cmp2 : α → α → Int) (l : List α)
    (hl : ∀ x ∈ l, ∀ y ∈ l, (cmp1 y x > 0 ↔ cmp2 y x > 0)) :
    sortCmp cmp1 l = sortCmp cmp2 l :=
  sortCmp_congr_aux cmp1 cmp2 l [] (fun _ _ y hy => absurd hy (List.not_mem_nil y)) hl

/-- On a selection list that is pairwise strictly disjoint (or equal), the
code's cut comparator is consistent and sorts exactly as the (start, end)
comparator, so `cut` processes the selections in (start, end) order. -/
theorem DeleteOperations.cut_sort_order_disjoint (config : CursorConfig) (model : SimpleModel)
    (sels : List Selection)
    (h : ∀ a ∈ sels, ∀ b ∈ sels,
      Selection.strictlyBefore a b = true ∨ Selection.strictlyBefore b a = true ∨ a = b) :
    sortCmp DeleteOperations.cutSelectionsCompare sels =
      sortCmp selectionsCompareByStartThenEnd sels ∧
    DeleteOperations.cut config model sels =
      ⟨EditOperationType.Other,
        DeleteOperations.cutLoop config model
          (sortCmp selectionsCompareByStartThenEnd sels) none,
        true, true⟩ := by
  have hs : sortCmp DeleteOperations.cutSelectionsCompare sels =
      sortCmp selectionsCompareByStartThenEnd sels :=
    sortCmp_congr _ _ sels (fun x hx y hy => cutSelectionsCompare_agree y x (h y hy x hx))
  exact ⟨hs, by unfold DeleteOperations.cut; rw [hs]⟩

/-!
Claims C10 and C2 — list bookkeeping lemmas for `setStates`,
`_setSecondaryStates` and `normalize`.
-/
/-- Setting a list position to the value it already holds is the
identity. -/
theorem list_set_get?_self {α : Type} (l : List α) (i : Nat) (a : α)
    (h : l.get? i = some a) : l.set i a = l := by
  apply List.ext_get?
  intro j
  rw [List.get?_set]
  split
  · next hij =>
    subst hij
    rw [h]
    rfl
  · rfl

/-- `eraseIdx` commutes with `map`. -/
theorem list_eraseIdx_map {α β : Type} (f : α → β) (l : List α) (i : Nat) :
    (l.map f).eraseIdx i = (l.eraseIdx i).map f := by
  induction l generalizing i with
  | nil => rfl
  | cons x xs ih =>
    cases i with
    | zero => rfl
    | succ j => simp [List.eraseIdx, ih]

/-- In a duplicate-free list, the element at the erased position does not
survive the erasure. -/
theorem nodup_get_not_mem_eraseIdx {α : Type} (l : List α) (h : l.Nodup)
    (i : Nat) (hi : i < l.length) : l.get ⟨i, hi⟩ ∉ l.eraseIdx i := by
  induction l generalizing i with
  | nil => simp at hi
  | cons x xs ih =>
    cases i with
    | zero =>
      simpa using (List.nodup_cons.mp h).1
    | succ j =>
      have hx := (List.nodup_cons.mp h).1
      have hxs := (List.nodup_cons.mp h).2
      have hj : j < xs.length := by simpa using hi
      intro hc
      simp only [List.eraseIdx, List.get_cons_succ, List.mem_cons] at hc
      rcases hc with hc | hc
      · exact hx (hc ▸ List.get_mem xs j hj)
      · exact ih hxs j hj hc

/-- The index renumbering `normalize` performs after a removal is
injective away from the removed index. -/
theorem renumber_inj (looser x y : Nat) (hx : x ≠ looser) (hy : y ≠ looser)
    (h : (if x > looser then x - 1 else x) = (if y > looser then y - 1 else y)) :
    x = y := by
  split_ifs at h <;> omega

/-- `_addSecondaryCursor` run `n` times grows the cursor list by `n`. -/
theorem CursorCollection.addSecondaryCursors_length (ctx : CursorContext)
    (n : Nat) : ∀ coll : CursorCollection,
    (CursorCollection.addSecondaryCursors ctx coll n).cursors.length =
      coll.cursors.length + n := by
  induction n with
  | zero => intro coll; rfl
  | succ m ih =>
    intro coll
    unfold CursorCollection.addSecondaryCursors
    rw [ih]
    simp [CursorCollection.addSecondaryCursor]
    omega

/-- The tail-removal loop of `_setSecondaryStates` succeeds and shrinks the
cursor list by the requested count whenever enough cursors remain. -/
theorem CursorCollection.removeSecondaryCursorsFromTail_spec (n : Nat) :
    ∀ coll : CursorCollection, n + 1 ≤ coll.cursors.length →
    ∃ c', CursorCollection.removeSecondaryCursorsFromTail coll n = some c' ∧
      c'.cursors.length = coll.cursors.length - n := by
  induction n with
  | zero =>
    intro coll _
    exact ⟨coll, rfl, rfl⟩
  | succ m ih =>
    intro coll h
    have hlen : 2 ≤ coll.cursors.length := by omega
    have hg : 0 ≤ ((coll.cursors.length : Int) - 2) + 1 ∧
        ((coll.cursors.length : Int) - 2) + 1 < (coll.cursors.length : Int) := by
      constructor <;> [omega; omega]
    have ht : ((((coll.cursors.length : Int) - 2)) + 1).toNat = coll.cursors.length - 1 := by
      omega
    have hr : coll.removeSecondaryCursor ((coll.cursors.length : Int) - 2) =
        some ⟨coll.cursors.eraseIdx (coll.cursors.length - 1),
          if (coll.lastAddedCursorIndex : Int) ≥ ((coll.cursors.length : Int) - 2) + 1 then
            coll.lastAddedCursorIndex - 1 else coll.lastAddedCursorIndex⟩ := by
      unfold CursorCollection.removeSecondaryCursor
      rw [if_pos hg, ht]
    have hel : (coll.cursors.eraseIdx (coll.cursors.length - 1)).length =
        coll.cursors.length - 1 :=
      List.length_eraseIdx_of_lt (by omega)
    unfold CursorCollection.removeSecondaryCursorsFromTail
    rw [hr]
    obtain ⟨c', hc', hlen'⟩ := ih
      ⟨coll.cursors.eraseIdx (coll.cursors.length - 1),
        if (coll.lastAddedCursorIndex : Int) ≥ ((coll.cursors.length : Int) - 2) + 1 then
          coll.lastAddedCursorIndex - 1 else coll.lastAddedCursorIndex⟩
      (by show m + 1 ≤ (coll.cursors.eraseIdx (coll.cursors.length - 1)).length
          rw [hel]; omega)
    refine ⟨c', hc', ?_⟩
    rw [hlen']
    show (coll.cursors.eraseIdx (coll.cursors.length - 1)).length - m = _
    rw [hel]
    omega

/-- The per-secondary update loop of `_setSecondaryStates` succeeds and
preserves the list length whenever every accessed index is in bounds. -/
theorem CursorCollection.setSecondaryLoop_spec (ctx : CursorContext)
    (states : List PartialCursorState) :
    ∀ (cursors : List Cursor) (i : Nat),
      states.length + i + 1 ≤ cursors.length →
    ∃ cs, CursorCollection.setSecondaryLoop ctx cursors states i = some cs ∧
      cs.length = cursors.length := by
  induction states with
  | nil =>
    intro cursors i _
    exact ⟨cursors, rfl, rfl⟩
  | cons s rest ih =>
    intro cursors i h
    have hi : i + 1 < cursors.length := by simp at h; omega
    unfold CursorCollection.setSecondaryLoop
    rw [List.get?_eq_get hi]
    obtain ⟨cs, hcs, hlen⟩ := ih (cursors.set (i + 1)
      (Cursor.setStateFn ctx (cursors.get ⟨i + 1, hi⟩) s.modelState s.viewState)) (i + 1)
      (by rw [List.length_set]; simp at h ⊢; omega)
    exact ⟨cs, hcs, by rw [hlen, List.length_set]⟩

/-- `_setSecondaryStates` succeeds on a non-empty collection and leaves
exactly one cursor per desired state plus the primary. -/
theorem CursorCollection.setSecondaryStates_spec (ctx : CursorContext)
    (coll : CursorCollection) (states : List PartialCursorState)
    (h : 1 ≤ coll.cursors.length) :
    ∃ c', CursorCollection.setSecondaryStates ctx coll states = some c' ∧
      c'.cursors.length = states.length + 1 := by
  unfold CursorCollection.setSecondaryStates
  dsimp only
  by_cases h1 : ((coll.cursors.length : Int) - 1) < (states.length : Int)
  · rw [if_pos h1]
    dsimp only
    have hadd := CursorCollection.addSecondaryCursors_length ctx
      ((states.length : Int) - ((coll.cursors.length : Int) - 1)).toNat coll
    have hlen2 : (CursorCollection.addSecondaryCursors ctx coll
        ((states.length : Int) - ((coll.cursors.length : Int) - 1)).toNat).cursors.length =
        states.length + 1 := by
      rw [hadd]
      omega
    obtain ⟨cs, hcs, hcslen⟩ := CursorCollection.setSecondaryLoop_spec ctx states
      (CursorCollection.addSecondaryCursors ctx coll
        ((states.length : Int) - ((coll.cursors.length : Int) - 1)).toNat).cursors 0
      (by rw [hlen2])
    rw [hcs]
    refine ⟨_, rfl, ?_⟩
    rw [hcslen, hlen2]
  · rw [if_neg h1]
    by_cases h2 : ((coll.cursors.length : Int) - 1) > (states.length : Int)
    · rw [if_pos h2]
      obtain ⟨cr, hcr, hcrlen⟩ := CursorCollection.removeSecondaryCursorsFromTail_spec
        (((coll.cursors.length : Int) - 1) - (states.length : Int)).toNat coll (by omega)
      rw [hcr]
      dsimp only
      have hlen2 : cr.cursors.length = states.length + 1 := by
        rw [hcrlen]
        omega
      obtain ⟨cs, hcs, hcslen⟩ := CursorCollection.setSecondaryLoop_spec ctx states
        cr.cursors 0 (by rw [hlen2])
      rw [hcs]
      refine ⟨_, rfl, ?_⟩
      rw [hcslen, hlen2]
    · rw [if_neg h2]
      dsimp only
      obtain ⟨cs, hcs, hcslen⟩ := CursorCollection.setSecondaryLoop_spec ctx states
        coll.cursors 0 (by omega)
      rw [hcs]
      refine ⟨_, rfl, ?_⟩
      rw [hcslen]
      omega

/-- `setStates` on a non-null, non-empty state list succeeds on a
non-empty collection, producing one cursor per state. -/
theorem CursorCollection.setStates_cons_spec (ctx : CursorContext)
    (coll : CursorCollection) (s : PartialCursorState)
    (rest : List PartialCursorState) (h : 1 ≤ coll.cursors.length) :
    ∃ c', CursorCollection.setStates ctx coll (some (s :: rest)) = some c' ∧
      c'.cursors.length = rest.length + 1 := by
  match hc : coll.cursors with
  | [] => rw [hc] at h; simp at h
  | c0 :: cs =>
    unfold CursorCollection.setStates
    rw [hc]
    exact CursorCollection.setSecondaryStates_spec ctx
      ⟨Cursor.setStateFn ctx c0 s.modelState s.viewState :: cs,
        coll.lastAddedCursorIndex⟩ rest (by simp)

/-- C10: `setStates` is a no-op exactly for a null argument; for a
non-null list it unconditionally reads `states[0]`, so the empty list is
the crash case and under the non-emptiness precondition every access in
`setStates` and `_setSecondaryStates` is in bounds and the call produces a
well-defined collection. -/
theorem claim_C10_setStates_null_noop_nonempty_defined (ctx : CursorContext) :
    (∀ coll : CursorCollection, CursorCollection.setStates ctx coll none = some coll) ∧
    (∀ coll : CursorCollection, CursorCollection.setStates ctx coll (some []) = none) ∧
    (∀ (coll : CursorCollection) (s : PartialCursorState) (rest : List PartialCursorState),
      1 ≤ coll.cursors.length →
      (CursorCollection.setStates ctx coll (some (s :: rest))).isSome = true) := by
  refine ⟨fun _ => rfl, fun _ => rfl, fun coll s rest h => ?_⟩
  obtain ⟨c', hc', _⟩ := CursorCollection.setStates_cons_spec ctx coll s rest h
  rw [hc']
  rfl

/-- C10 witness: on a two-cursor collection, a null argument is a no-op,
the empty list crashes, and a one-state list is well defined. -/
theorem claim_C10_setStates_witness :
    (CursorCollection.setStates idContext ⟨[cursorInit, cursorInit], 1⟩ none =
      some ⟨[cursorInit, cursorInit], 1⟩) ∧
    (CursorCollection.setStates idContext ⟨[cursorInit, cursorInit], 1⟩ (some []) = none) ∧
    (CursorCollection.setStates idContext ⟨[cursorInit, cursorInit], 1⟩
      (some [CursorState.fromModelSelection (caretSel 3 3)])).isSome = true := by
  refine ⟨(claim_C10_setStates_null_noop_nonempty_defined idContext).1 _,
    (claim_C10_setStates_null_noop_nonempty_defined idContext).2.1 _,
    (claim_C10_setStates_null_noop_nonempty_defined idContext).2.2 _ _ [] (by decide)⟩

/-- The merge-body computation succeeds whenever the winner index is in
bounds, and it preserves the cursor-list length. -/
theorem CursorCollection.normalizeMergedCursor_spec (ctx : CursorContext)
    (coll : CursorCollection) (li wi : Nat) (lsel wsel : Selection)
    (hw : wi < coll.cursors.length) :
    ∃ sc1 : Selection × CursorCollection,
      CursorCollection.normalizeMergedCursor ctx coll li wi lsel wsel = some sc1 ∧
      sc1.2.cursors.length = coll.cursors.length := by
  unfold CursorCollection.normalizeMergedCursor
  split
  · rw [List.get?_eq_get hw]
    exact ⟨_, rfl, by simp [List.length_set]⟩
  · exact ⟨_, rfl, rfl⟩

/-- Removing the cursor at a positive in-bounds index succeeds and erases
exactly that index. -/
theorem CursorCollection.removeSecondaryCursor_at (coll : CursorCollection)
    (li : Nat) (h1 : 1 ≤ li) (h2 : li < coll.cursors.length) :
    ∃ la, coll.removeSecondaryCursor ((li : Int) - 1) =
      some ⟨coll.cursors.eraseIdx li, la⟩ := by
  unfold CursorCollection.removeSecondaryCursor
  rw [if_pos (by constructor <;> omega)]
  have ht : (((li : Int) - 1) + 1).toNat = li := by omega
  rw [ht]
  exact ⟨_, rfl⟩

/-- Core bookkeeping of one merge step on the sorted snapshot: with
duplicate-free, in-bounds indices, the loser index (the larger of the two)
is at least 1 and in bounds, and the updated snapshot — winner entry
rewritten, indices above the loser renumbered down, loser entry erased —
is again duplicate-free and in bounds for a cursor list one shorter. -/
theorem sorted_step_facts (L : List (Nat × Selection)) (ws ls : Nat)
    (sel' : Selection) (n : Nat)
    (hnodup : (L.map Prod.fst).Nodup)
    (hbound : ∀ p ∈ L, p.1 < n)
    (hws : ws < L.length) (hls : ls < L.length)
    (hlt : (L.getD ws (0, ⟨1, 1, 1, 1⟩)).1 < (L.getD ls (0, ⟨1, 1, 1, 1⟩)).1) :
    1 ≤ (L.getD ls (0, ⟨1, 1, 1, 1⟩)).1 ∧
    (L.getD ls (0, ⟨1, 1, 1, 1⟩)).1 < n ∧
    ((((L.set ws ((L.getD ws (0, ⟨1, 1, 1, 1⟩)).1, sel')).map
        (fun scp => if scp.1 > (L.getD ls (0, ⟨1, 1, 1, 1⟩)).1 then (scp.1 - 1, scp.2) else scp)).eraseIdx ls).map
      Prod.fst).Nodup ∧
    (∀ p ∈ ((L.set ws ((L.getD ws (0, ⟨1, 1, 1, 1⟩)).1, sel')).map
        (fun scp => if scp.1 > (L.getD ls (0, ⟨1, 1, 1, 1⟩)).1 then (scp.1 - 1, scp.2) else scp)).eraseIdx ls,
      p.1 < n - 1) ∧
    (((L.set ws ((L.getD ws (0, ⟨1, 1, 1, 1⟩)).1, sel')).map
        (fun scp => if scp.1 > (L.getD ls (0, ⟨1, 1, 1, 1⟩)).1 then (scp.1 - 1, scp.2) else scp)).eraseIdx ls).length =
      L.length - 1 := by
  have hlsget : L.getD ls (0, ⟨1, 1, 1, 1⟩) = L.get ⟨ls, hls⟩ := List.getD_eq_get _ _ hls
  have hwsget : L.getD ws (0, ⟨1, 1, 1, 1⟩) = L.get ⟨ws, hws⟩ := List.getD_eq_get _ _ hws
  have hloosermem : L.getD ls (0, ⟨1, 1, 1, 1⟩) ∈ L := by
    rw [hlsget]; exact List.get_mem L ls hls
  have hlooserlt : (L.getD ls (0, ⟨1, 1, 1, 1⟩)).1 < n := hbound _ hloosermem
  have hF1 : (L.map Prod.fst).get? ws = some (L.getD ws (0, ⟨1, 1, 1, 1⟩)).1 := by
    rw [List.get?_map, List.get?_eq_get hws, Option.map_some', hwsget]
  have hmapset : ((L.set ws ((L.getD ws (0, ⟨1, 1, 1, 1⟩)).1, sel')).map Prod.fst) =
      L.map Prod.fst := by
    rw [List.map_set]
    exact list_set_get?_self _ _ _ hF1
  have hlsfst : ls < (L.map Prod.fst).length := by simpa using hls
  have hget_fst : (L.map Prod.fst).get ⟨ls, hlsfst⟩ = (L.getD ls (0, ⟨1, 1, 1, 1⟩)).1 := by
    rw [List.get_map, hlsget]
  have hnotmem : (L.getD ls (0, ⟨1, 1, 1, 1⟩)).1 ∉ (L.map Prod.fst).eraseIdx ls := by
    have := nodup_get_not_mem_eraseIdx (L.map Prod.fst) hnodup ls hlsfst
    rwa [hget_fst] at this
  have hcomm : (((L.set ws ((L.getD ws (0, ⟨1, 1, 1, 1⟩)).1, sel')).map
        (fun scp => if scp.1 > (L.getD ls (0, ⟨1, 1, 1, 1⟩)).1 then (scp.1 - 1, scp.2) else scp)).eraseIdx ls) =
      ((L.set ws ((L.getD ws (0, ⟨1, 1, 1, 1⟩)).1, sel')).eraseIdx ls).map
        (fun scp => if scp.1 > (L.getD ls (0, ⟨1, 1, 1, 1⟩)).1 then (scp.1 - 1, scp.2) else scp) :=
    list_eraseIdx_map _ _ _
  have hfstbase : (((L.set ws ((L.getD ws (0, ⟨1, 1, 1, 1⟩)).1, sel')).eraseIdx ls).map Prod.fst) =
      (L.map Prod.fst).eraseIdx ls := by
    rw [← list_eraseIdx_map, hmapset]
  have hbase_nodup : ((L.map Prod.fst).eraseIdx ls).Nodup :=
    List.Nodup.sublist (List.eraseIdx_sublist _ _) hnodup
  refine ⟨by omega, hlooserlt, ?_, ?_, ?_⟩
  · rw [hcomm, List.map_map]
    have hfr : (Prod.fst ∘ (fun scp : Nat × Selection =>
        if scp.1 > (L.getD ls (0, ⟨1, 1, 1, 1⟩)).1 then (scp.1 - 1, scp.2) else scp)) =
        ((fun i => if i > (L.getD ls (0, ⟨1, 1, 1, 1⟩)).1 then i - 1 else i) ∘ Prod.fst) := by
      funext p
      by_cases hp : p.1 > (L.getD ls (0, ⟨1, 1, 1, 1⟩)).1
      · simp only [Function.comp_apply, if_pos hp]
      · simp only [Function.comp_apply, if_neg hp]
    rw [hfr, ← List.map_map, hfstbase]
    refine (List.nodup_map_iff_inj_on hbase_nodup).mpr ?_
    intro x hx y hy hxy
    have hxne : x ≠ (L.getD ls (0, ⟨1, 1, 1, 1⟩)).1 := fun hc => hnotmem (hc ▸ hx)
    have hyne : y ≠ (L.getD ls (0, ⟨1, 1, 1, 1⟩)).1 := fun hc => hnotmem (hc ▸ hy)
    exact renumber_inj _ x y hxne hyne hxy
  · intro p hp
    rw [hcomm] at hp
    obtain ⟨q, hq, hpq⟩ := List.mem_map.mp hp
    have hq1 : q ∈ L.set ws ((L.getD ws (0, ⟨1, 1, 1, 1⟩)).1, sel') :=
      List.mem_of_mem_eraseIdx hq
    have hqlt : q.1 < n := by
      rcases List.mem_or_eq_of_mem_set hq1 with hmem | heq
      · exact hbound _ hmem
      · rw [heq]
        dsimp only
        exact hbound _ (by rw [hwsget]; exact List.get_mem L ws hws)
    have hqfst : q.1 ∈ (L.map Prod.fst).eraseIdx ls := by
      rw [← hfstbase]
      exact List.mem_map_of_mem Prod.fst hq
    have hqne : q.1 ≠ (L.getD ls (0, ⟨1, 1, 1, 1⟩)).1 := fun hc => hnotmem (hc ▸ hqfst)
    rw [← hpq]
    by_cases hcase : q.1 > (L.getD ls (0, ⟨1, 1, 1, 1⟩)).1
    · rw [if_pos hcase]
      dsimp only
      omega
    · rw [if_neg hcase]
      omega
  · rw [hcomm, List.length_map, List.length_eraseIdx_of_lt (by simpa using hls),
      List.length_set]

/-- The loop halts at the end of the sorted snapshot. -/
theorem CursorCollection.normalizeLoop_halt (ctx : CursorContext) (st : NormState)
    (idx : Nat) (h : ¬(idx + 1 < st.sorted.length)) :
    CursorCollection.normalizeLoop ctx st idx = some st := by
  unfold CursorCollection.normalizeLoop
  rw [dif_neg h]

/-- With merging disabled the loop only advances. -/
theorem CursorCollection.normalizeLoop_skip_cfg (ctx : CursorContext) (st : NormState)
    (idx : Nat) (h1 : idx + 1 < st.sorted.length)
    (hcfg : ¬(ctx.cursorConfig.multiCursorMergeOverlapping = true)) :
    CursorCollection.normalizeLoop ctx st idx =
      CursorCollection.normalizeLoop ctx st (idx + 1) := by
  conv_lhs => unfold CursorCollection.normalizeLoop
  rw [dif_pos h1]
  dsimp only
  rw [if_pos hcfg]

/-- When the pair does not satisfy the merge condition the loop advances. -/
theorem CursorCollection.normalizeLoop_skip (ctx : CursorContext) (st : NormState)
    (idx : Nat) (h1 : idx + 1 < st.sorted.length)
    (hcfg : ctx.cursorConfig.multiCursorMergeOverlapping = true)
    (hsm : normalizeShouldMerge st idx = false) :
    CursorCollection.normalizeLoop ctx st idx =
      CursorCollection.normalizeLoop ctx st (idx + 1) := by
  conv_lhs => unfold CursorCollection.normalizeLoop
  rw [dif_pos h1]
  dsimp only
  rw [if_neg (not_not_intro hcfg), hsm]
  simp

/-- When the pair merges, the loop continues at the same position on the
state with the winner updated, the snapshot renumbered and the loser
removed and logged. -/
theorem CursorCollection.normalizeLoop_merge_eq (ctx : CursorContext) (st : NormState)
    (idx : Nat) (h1 : idx + 1 < st.sorted.length)
    (hcfg : ctx.cursorConfig.multiCursorMergeOverlapping = true)
    (hsm : normalizeShouldMerge st idx = true)
    (sc1 : Selection × CursorCollection)
    (heq : CursorCollection.normalizeMergedCursor ctx st.coll
        (st.sorted.getD (normalizeLooserSorted st idx) (0, ⟨1, 1, 1, 1⟩)).1
        (st.sorted.getD (normalizeWinnerSorted st idx) (0, ⟨1, 1, 1, 1⟩)).1
        (st.sorted.getD (normalizeLooserSorted st idx) (0, ⟨1, 1, 1, 1⟩)).2
        (st.sorted.getD (normalizeWinnerSorted st idx) (0, ⟨1, 1, 1, 1⟩)).2 = some sc1)
    (c : CursorCollection)
    (hrm : sc1.2.removeSecondaryCursor
        (((st.sorted.getD (normalizeLooserSorted st idx) (0, ⟨1, 1, 1, 1⟩)).1 : Int) - 1) =
      some c) :
    CursorCollection.normalizeLoop ctx st idx =
      CursorCollection.normalizeLoop ctx
        ⟨c,
          ((st.sorted.set (normalizeWinnerSorted st idx)
              ((st.sorted.getD (normalizeWinnerSorted st idx) (0, ⟨1, 1, 1, 1⟩)).1, sc1.1)).map
            (fun scp =>
              if scp.1 > (st.sorted.getD (normalizeLooserSorted st idx) (0, ⟨1, 1, 1, 1⟩)).1 then
                (scp.1 - 1, scp.2)
              else scp)).eraseIdx (normalizeLooserSorted st idx),
          st.removedLog ++ [(st.sorted.getD (normalizeLooserSorted st idx) (0, ⟨1, 1, 1, 1⟩)).1]⟩
        idx := by
  conv_lhs => unfold CursorCollection.normalizeLoop
  rw [dif_pos h1]
  dsimp only
  rw [if_neg (not_not_intro hcfg), hsm, if_pos rfl, heq]
  dsimp only
  rw [hrm]

/-- Inserting by comparator is a permutation of consing. -/
theorem insertCmp_perm {α : Type} (cmp : α → α → Int) (x : α) :
    ∀ l : List α, (insertCmp cmp x l).Perm (x :: l) := by
  intro l
  induction l with
  | nil => exact List.Perm.refl _
  | cons y ys ih =>
    unfold insertCmp
    by_cases h : cmp y x > 0
    · rw [if_pos h]
    · rw [if_neg h]
      exact ((ih.cons y).trans (List.Perm.swap x y ys))

/-- The insertion-sort fold is a permutation of the input prepended to the
accumulator. -/
theorem sortCmp_perm_aux {α : Type} (cmp : α → α → Int) :
    ∀ (l acc : List α),
      (l.foldl (fun acc x => insertCmp cmp x acc) acc).Perm (l ++ acc) := by
  intro l
  induction l with
  | nil => intro acc; exact List.Perm.refl _
  | cons x xs ih =>
    intro acc
    have h1 := ih (insertCmp cmp x acc)
    have h2 : (xs ++ insertCmp cmp x acc).Perm (xs ++ (x :: acc)) :=
      List.Perm.append_left xs (insertCmp_perm cmp x acc)
    have h3 : (xs ++ (x :: acc)).Perm (x :: (xs ++ acc)) := List.perm_middle
    exact (h1.trans h2).trans h3

/-- The sort model permutes its input. -/
theorem sortCmp_perm {α : Type} (cmp : α → α → Int) (l : List α) :
    (sortCmp cmp l).Perm l := by
  have h := sortCmp_perm_aux cmp l []
  rw [List.append_nil] at h
  exact h

/-- The winner's sorted position is in bounds. -/
theorem normalizeWinnerSorted_lt (st : NormState) (idx : Nat)
    (h1 : idx + 1 < st.sorted.length) :
    normalizeWinnerSorted st idx < st.sorted.length := by
  unfold normalizeWinnerSorted
  split <;> omega

/-- The loser's sorted position is in bounds. -/
theorem normalizeLooserSorted_lt (st : NormState) (idx : Nat)
    (h1 : idx + 1 < st.sorted.length) :
    normalizeLooserSorted st idx < st.sorted.length := by
  unfold normalizeLooserSorted
  split <;> omega

/-- With a duplicate-free snapshot, the winner's original index is strictly
below the loser's. -/
theorem normalize_winner_lt_looser (st : NormState) (idx : Nat)
    (h1 : idx + 1 < st.sorted.length)
    (hnodup : (st.sorted.map Prod.fst).Nodup) :
    (st.sorted.getD (normalizeWinnerSorted st idx) (0, ⟨1, 1, 1, 1⟩)).1 <
      (st.sorted.getD (normalizeLooserSorted st idx) (0, ⟨1, 1, 1, 1⟩)).1 := by
  have hidx : idx < st.sorted.length := by omega
  have hne : (st.sorted.getD idx (0, ⟨1, 1, 1, 1⟩)).1 ≠
      (st.sorted.getD (idx + 1) (0, ⟨1, 1, 1, 1⟩)).1 := by
    intro hcontra
    have hi1 : idx < (st.sorted.map Prod.fst).length := by simpa using hidx
    have hi2 : idx + 1 < (st.sorted.map Prod.fst).length := by simpa using h1
    have hg : (st.sorted.map Prod.fst).get ⟨idx, hi1⟩ =
        (st.sorted.map Prod.fst).get ⟨idx + 1, hi2⟩ := by
      rw [List.get_map, List.get_map]
      rw [List.getD_eq_get _ _ hidx, List.getD_eq_get _ _ h1] at hcontra
      exact hcontra
    have hfin := List.nodup_iff_injective_get.mp hnodup hg
    have : idx = idx + 1 := congrArg Fin.val hfin
    omega
  by_cases hab : (st.sorted.getD idx (0, ⟨1, 1, 1, 1⟩)).1 <
      (st.sorted.getD (idx + 1) (0, ⟨1, 1, 1, 1⟩)).1
  · simp only [normalizeWinnerSorted, normalizeLooserSorted, if_pos hab]
    exact hab
  · simp only [normalizeWinnerSorted, normalizeLooserSorted, if_neg hab]
    omega

/-- The full data of one merge step: with a duplicate-free in-bounds
snapshot, the merged-cursor body succeeds, the subsequent removal of the
loser succeeds and erases exactly the loser's index, which is at least 1
and in bounds. -/
theorem CursorCollection.normalize_merge_step (ctx : CursorContext) (st : NormState)
    (idx : Nat) (h1 : idx + 1 < st.sorted.length)
    (hnodup : (st.sorted.map Prod.fst).Nodup)
    (hbound : ∀ p ∈ st.sorted, p.1 < st.coll.cursors.length) :
    ∃ (sc1 : Selection × CursorCollection) (la : Int),
      CursorCollection.normalizeMergedCursor ctx st.coll
        (st.sorted.getD (normalizeLooserSorted st idx) (0, ⟨1, 1, 1, 1⟩)).1
        (st.sorted.getD (normalizeWinnerSorted st idx) (0, ⟨1, 1, 1, 1⟩)).1
        (st.sorted.getD (normalizeLooserSorted st idx) (0, ⟨1, 1, 1, 1⟩)).2
        (st.sorted.getD (normalizeWinnerSorted st idx) (0, ⟨1, 1, 1, 1⟩)).2 = some sc1 ∧
      sc1.2.cursors.length = st.coll.cursors.length ∧
      sc1.2.removeSecondaryCursor
        (((st.sorted.getD (normalizeLooserSorted st idx) (0, ⟨1, 1, 1, 1⟩)).1 : Int) - 1) =
        some ⟨sc1.2.cursors.eraseIdx
          (st.sorted.getD (normalizeLooserSorted st idx) (0, ⟨1, 1, 1, 1⟩)).1, la⟩ ∧
      1 ≤ (st.sorted.getD (normalizeLooserSorted st idx) (0, ⟨1, 1, 1, 1⟩)).1 ∧
      (st.sorted.getD (normalizeLooserSorted st idx) (0, ⟨1, 1, 1, 1⟩)).1 <
        st.coll.cursors.length := by
  have hws := normalizeWinnerSorted_lt st idx h1
  have hls := normalizeLooserSorted_lt st idx h1
  have hlt := normalize_winner_lt_looser st idx h1 hnodup
  have hwmem : st.sorted.getD (normalizeWinnerSorted st idx) (0, ⟨1, 1, 1, 1⟩) ∈ st.sorted := by
    rw [List.getD_eq_get _ _ hws]
    exact List.get_mem _ _ _
  have hlmem : st.sorted.getD (normalizeLooserSorted st idx) (0, ⟨1, 1, 1, 1⟩) ∈ st.sorted := by
    rw [List.getD_eq_get _ _ hls]
    exact List.get_mem _ _ _
  have hwbound := hbound _ hwmem
  have hlbound := hbound _ hlmem
  obtain ⟨sc1, heq, hlen⟩ := CursorCollection.normalizeMergedCursor_spec ctx st.coll
    (st.sorted.getD (normalizeLooserSorted st idx) (0, ⟨1, 1, 1, 1⟩)).1
    (st.sorted.getD (normalizeWinnerSorted st idx) (0, ⟨1, 1, 1, 1⟩)).1
    (st.sorted.getD (normalizeLooserSorted st idx) (0, ⟨1, 1, 1, 1⟩)).2
    (st.sorted.getD (normalizeWinnerSorted st idx) (0, ⟨1, 1, 1, 1⟩)).2 hwbound
  obtain ⟨la, hrm⟩ := CursorCollection.removeSecondaryCursor_at sc1.2
    (st.sorted.getD (normalizeLooserSorted st idx) (0, ⟨1, 1, 1, 1⟩)).1
    (by omega) (by omega)
  exact ⟨sc1, la, heq, hlen, hrm, by omega, hlbound⟩

/-- The merge loop never fails under the snapshot invariant, and its result
satisfies the invariant again: in particular the resulting cursor list is
non-empty and every removal it logged targeted an index of at least 1. -/
theorem CursorCollection.normalizeLoop_inv (ctx : CursorContext) (st : NormState)
    (idx : Nat) :
    NormInv st →
      ∃ st', CursorCollection.normalizeLoop ctx st idx = some st' ∧ NormInv st' := by
  induction st, idx using CursorCollection.normalizeLoop.induct ctx with
  | case1 st idx h1 hcfg ih =>
    intro hinv
    obtain ⟨st', hrun, hinv'⟩ := ih hinv
    refine ⟨st', ?_, hinv'⟩
    rw [CursorCollection.normalizeLoop_skip_cfg ctx st idx h1 hcfg]
    exact hrun
  | case2 st idx h1 dflt hcfg shouldMergeCursors hsm winnerSortedCursorIndex looserSortedCursorIndex looserIndex winnerIndex looserSelection winnerSelection merged hnone =>
    intro hinv
    exfalso
    obtain ⟨sc1, la, heq, -, -, -, -⟩ := CursorCollection.normalize_merge_step ctx st idx
      h1 hinv.1 hinv.2.1
    have hnone' : CursorCollection.normalizeMergedCursor ctx st.coll
        (st.sorted.getD (normalizeLooserSorted st idx) (0, ⟨1, 1, 1, 1⟩)).1
        (st.sorted.getD (normalizeWinnerSorted st idx) (0, ⟨1, 1, 1, 1⟩)).1
        (st.sorted.getD (normalizeLooserSorted st idx) (0, ⟨1, 1, 1, 1⟩)).2
        (st.sorted.getD (normalizeWinnerSorted st idx) (0, ⟨1, 1, 1, 1⟩)).2 = none := hnone
    rw [heq] at hnone'
    exact Option.noConfusion hnone'
  | case3 st idx h1 dflt hcfg shouldMergeCursors hsm winnerSortedCursorIndex looserSortedCursorIndex looserIndex winnerIndex looserSelection winnerSelection merged sc1 hmerged hrmnone =>
    intro hinv
    exfalso
    obtain ⟨sc1', la, heq, hlen, hrm, hge1, hltn⟩ :=
      CursorCollection.normalize_merge_step ctx st idx h1 hinv.1 hinv.2.1
    have hmerged' : CursorCollection.normalizeMergedCursor ctx st.coll
        (st.sorted.getD (normalizeLooserSorted st idx) (0, ⟨1, 1, 1, 1⟩)).1
        (st.sorted.getD (normalizeWinnerSorted st idx) (0, ⟨1, 1, 1, 1⟩)).1
        (st.sorted.getD (normalizeLooserSorted st idx) (0, ⟨1, 1, 1, 1⟩)).2
        (st.sorted.getD (normalizeWinnerSorted st idx) (0, ⟨1, 1, 1, 1⟩)).2 = some sc1 :=
      hmerged
    have hsc : sc1' = sc1 := Option.some.inj (heq.symm.trans hmerged')
    have hrmnone' : sc1.2.removeSecondaryCursor
        (((st.sorted.getD (normalizeLooserSorted st idx) (0, ⟨1, 1, 1, 1⟩)).1 : Int) - 1) =
        none := hrmnone
    rw [← hsc, hrm] at hrmnone'
    exact Option.noConfusion hrmnone'
  | case4 st idx h1 dflt hcfg shouldMergeCursors hsm winnerSortedCursorIndex looserSortedCursorIndex looserIndex winnerIndex looserSelection winnerSelection merged sc1 hmerged sorted1 sorted2 c hrmsome sorted3 ih =>
    intro hinv
    obtain ⟨sc1', la, heq, hlen, hrm, hge1, hltn⟩ :=
      CursorCollection.normalize_merge_step ctx st idx h1 hinv.1 hinv.2.1
    have hmerged' : CursorCollection.normalizeMergedCursor ctx st.coll
        (st.sorted.getD (normalizeLooserSorted st idx) (0, ⟨1, 1, 1, 1⟩)).1
        (st.sorted.getD (normalizeWinnerSorted st idx) (0, ⟨1, 1, 1, 1⟩)).1
        (st.sorted.getD (normalizeLooserSorted st idx) (0, ⟨1, 1, 1, 1⟩)).2
        (st.sorted.getD (normalizeWinnerSorted st idx) (0, ⟨1, 1, 1, 1⟩)).2 = some sc1 :=
      hmerged
    have hsc : sc1' = sc1 := Option.some.inj (heq.symm.trans hmerged')
    rw [hsc] at heq hlen hrm
    have hrmsome' : sc1.2.removeSecondaryCursor
        (((st.sorted.getD (normalizeLooserSorted st idx) (0, ⟨1, 1, 1, 1⟩)).1 : Int) - 1) =
        some c := hrmsome
    have hc : c = ⟨sc1.2.cursors.eraseIdx
        (st.sorted.getD (normalizeLooserSorted st idx) (0, ⟨1, 1, 1, 1⟩)).1, la⟩ :=
      Option.some.inj (hrmsome'.symm.trans hrm)
    have hclen : c.cursors.length = st.coll.cursors.length - 1 := by
      rw [hc]
      show (sc1.2.cursors.eraseIdx _).length = _
      rw [List.length_eraseIdx_of_lt (by omega), hlen]
    obtain ⟨hge1', hltn', hnodup', hbound', hslen'⟩ := sorted_step_facts st.sorted
      (normalizeWinnerSorted st idx) (normalizeLooserSorted st idx) sc1.1
      st.coll.cursors.length hinv.1 hinv.2.1
      (normalizeWinnerSorted_lt st idx h1) (normalizeLooserSorted_lt st idx h1)
      (normalize_winner_lt_looser st idx h1 hinv.1)
    have hnewinv : NormInv
        ⟨c,
          ((st.sorted.set (normalizeWinnerSorted st idx)
              ((st.sorted.getD (normalizeWinnerSorted st idx) (0, ⟨1, 1, 1, 1⟩)).1,
                sc1.1)).map
            (fun scp =>
              if scp.1 > (st.sorted.getD (normalizeLooserSorted st idx) (0, ⟨1, 1, 1, 1⟩)).1
              then (scp.1 - 1, scp.2) else scp)).eraseIdx (normalizeLooserSorted st idx),
          st.removedLog ++
            [(st.sorted.getD (normalizeLooserSorted st idx) (0, ⟨1, 1, 1, 1⟩)).1]⟩ := by
      refine ⟨hnodup', ?_, ?_, ?_⟩
      · intro p hp
        have := hbound' p hp
        show p.1 < c.cursors.length
        omega
      · show 1 ≤ c.cursors.length
        omega
      · intro i hi
        rcases List.mem_append.mp hi with hmem | hmem
        · exact hinv.2.2.2 i hmem
        · have : i = (st.sorted.getD (normalizeLooserSorted st idx) (0, ⟨1, 1, 1, 1⟩)).1 :=
            List.mem_singleton.mp hmem
          omega
    obtain ⟨st', hrun, hinv'⟩ := ih hnewinv
    refine ⟨st', ?_, hinv'⟩
    rw [CursorCollection.normalizeLoop_merge_eq ctx st idx h1 (not_not.mp hcfg) hsm sc1
      hmerged' c hrmsome']
    exact hrun
  | case5 st idx h1 hcfg shouldMergeCursors hsm ih =>
    intro hinv
    obtain ⟨st', hrun, hinv'⟩ := ih hinv
    refine ⟨st', ?_, hinv'⟩
    have h0 : ¬(normalizeShouldMerge st idx = true) := hsm
    have hsm' : normalizeShouldMerge st idx = false := by
      cases h : normalizeShouldMerge st idx
      · rfl
      · exact absurd h h0
    rw [CursorCollection.normalizeLoop_skip ctx st idx h1 (not_not.mp hcfg) hsm']
    exact hrun
  | case6 st idx h =>
    intro hinv
    exact ⟨st, CursorCollection.normalizeLoop_halt ctx st idx h, hinv⟩

/-- `normalize` (with its ghost removal log) never fails on a non-empty
collection, returns a non-empty collection, and only ever removed cursors
at index at least 1. -/
theorem CursorCollection.normalizeAux_inv (ctx : CursorContext) (coll : CursorCollection)
    (h : 1 ≤ coll.cursors.length) :
    ∃ (c' : CursorCollection) (log : List Nat),
      CursorCollection.normalizeAux ctx coll = some (c', log) ∧
      1 ≤ c'.cursors.length ∧ (∀ i ∈ log, 1 ≤ i) := by
  unfold CursorCollection.normalizeAux
  by_cases h1 : coll.cursors.length = 1
  · rw [if_pos h1]
    exact ⟨coll, [], rfl, by omega, fun i hi => absurd hi (List.not_mem_nil i)⟩
  · rw [if_neg h1]
    dsimp only
    have hperm := sortCmp_perm
      (fun a b : Nat × Selection => Range.compareRangesUsingStarts a.2.range b.2.range)
      ((coll.cursors.map (fun c => c.modelState.selection)).enum)
    have hinv0 : NormInv
        ⟨coll,
          sortCmp
            (fun a b : Nat × Selection => Range.compareRangesUsingStarts a.2.range b.2.range)
            ((coll.cursors.map (fun c => c.modelState.selection)).enum), []⟩ := by
      refine ⟨?_, ?_, h, fun i hi => absurd hi (List.not_mem_nil i)⟩
      · have hmapperm := hperm.map Prod.fst
        rw [List.enum_map_fst] at hmapperm
        exact hmapperm.nodup_iff.mpr (List.nodup_range _)
      · intro p hp
        have hmem : p ∈ (coll.cursors.map (fun c => c.modelState.selection)).enum :=
          hperm.subset hp
        have hlt := List.fst_lt_of_mem_enum hmem
        rw [List.length_map] at hlt
        exact hlt
    obtain ⟨st', hrun, hinv'⟩ := CursorCollection.normalizeLoop_inv ctx _ 0 hinv0
    rw [hrun]
    exact ⟨st'.coll, st'.removedLog, rfl, hinv'.2.2.1, hinv'.2.2.2⟩

/-- The ghost-instrumented tail-removal loop computes the production one. -/
theorem CursorCollection.removeSecondaryCursorsFromTailLog_agrees (n : Nat) :
    ∀ coll : CursorCollection,
      (CursorCollection.removeSecondaryCursorsFromTailLog coll n).map Prod.fst =
        CursorCollection.removeSecondaryCursorsFromTail coll n := by
  induction n with
  | zero => intro coll; rfl
  | succ m ih =>
    intro coll
    unfold CursorCollection.removeSecondaryCursorsFromTailLog
      CursorCollection.removeSecondaryCursorsFromTail
    cases hr : coll.removeSecondaryCursor ((coll.cursors.length : Int) - 2) with
    | none => rfl
    | some c =>
      rw [Option.map_map]
      exact ih c

/-- Whenever enough cursors remain, the tail-removal loop succeeds, shrinks
the list by the requested count, and every index it erased is at least 1. -/
theorem CursorCollection.removeSecondaryCursorsFromTailLog_spec (n : Nat) :
    ∀ coll : CursorCollection, n + 1 ≤ coll.cursors.length →
    ∃ (c' : CursorCollection) (log : List Nat),
      CursorCollection.removeSecondaryCursorsFromTailLog coll n = some (c', log) ∧
      c'.cursors.length = coll.cursors.length - n ∧
      ∀ i ∈ log, 1 ≤ i := by
  induction n with
  | zero =>
    intro coll _
    exact ⟨coll, [], rfl, rfl, fun i hi => absurd hi (List.not_mem_nil i)⟩
  | succ m ih =>
    intro coll h
    have hg : 0 ≤ ((coll.cursors.length : Int) - 2) + 1 ∧
        ((coll.cursors.length : Int) - 2) + 1 < (coll.cursors.length : Int) := by
      constructor <;> omega
    have ht : ((((coll.cursors.length : Int) - 2)) + 1).toNat = coll.cursors.length - 1 := by
      omega
    have hr : coll.removeSecondaryCursor ((coll.cursors.length : Int) - 2) =
        some ⟨coll.cursors.eraseIdx (coll.cursors.length - 1),
          if (coll.lastAddedCursorIndex : Int) ≥ ((coll.cursors.length : Int) - 2) + 1 then
            coll.lastAddedCursorIndex - 1 else coll.lastAddedCursorIndex⟩ := by
      unfold CursorCollection.removeSecondaryCursor
      rw [if_pos hg, ht]
    have hel : (coll.cursors.eraseIdx (coll.cursors.length - 1)).length =
        coll.cursors.length - 1 :=
      List.length_eraseIdx_of_lt (by omega)
    unfold CursorCollection.removeSecondaryCursorsFromTailLog
    rw [hr]
    obtain ⟨c', log, hc', hlen', hge⟩ := ih
      ⟨coll.cursors.eraseIdx (coll.cursors.length - 1),
        if (coll.lastAddedCursorIndex : Int) ≥ ((coll.cursors.length : Int) - 2) + 1 then
          coll.lastAddedCursorIndex - 1 else coll.lastAddedCursorIndex⟩
      (by show m + 1 ≤ (coll.cursors.eraseIdx (coll.cursors.length - 1)).length
          rw [hel]; omega)
    refine ⟨c', (coll.cursors.length - 1) :: log, ?_, ?_, ?_⟩
    · show (CursorCollection.removeSecondaryCursorsFromTailLog
          ⟨coll.cursors.eraseIdx (coll.cursors.length - 1),
            if (coll.lastAddedCursorIndex : Int) ≥ ((coll.cursors.length : Int) - 2) + 1 then
              coll.lastAddedCursorIndex - 1 else coll.lastAddedCursorIndex⟩ m).map
          (fun p => (p.1, (coll.cursors.length - 1) :: p.2)) = _
      rw [hc']
      rfl
    · rw [hlen']
      show (coll.cursors.eraseIdx (coll.cursors.length - 1)).length - m = _
      rw [hel]
      omega
    · intro i hi
      rcases List.mem_cons.mp hi with hin | hin
      · omega
      · exact hge i hin

/-- C2: the collection always holds at least one cursor and the primary at
index 0 is never disposed: construction yields one cursor; a null
`setStates` is a no-op; a non-empty `setStates` succeeds with one cursor
per state; `killSecondaryCursors` leaves exactly the primary; `normalize`
(run here with its ghost removal log) succeeds with a non-empty result and
every index it removed is at least 1; and the tail-removal loop — the only
removal site of `setStates`/`killSecondaryCursors` — only ever erases
indices of at least 1. -/
theorem claim_C2_collection_invariant (ctx : CursorContext) (coll : CursorCollection)
    (s : PartialCursorState) (rest : List PartialCursorState) (n : Nat)
    (h : 1 ≤ coll.cursors.length) (hn : n + 1 ≤ coll.cursors.length) :
    ((CursorCollection.new ctx).cursors.length = 1) ∧
    (CursorCollection.setStates ctx coll none = some coll) ∧
    (∃ c', CursorCollection.setStates ctx coll (some (s :: rest)) = some c' ∧
      c'.cursors.length = rest.length + 1 ∧ 1 ≤ c'.cursors.length) ∧
    (∃ c', CursorCollection.killSecondaryCursors ctx coll = some c' ∧
      c'.cursors.length = 1) ∧
    (∃ (c' : CursorCollection) (log : List Nat),
      CursorCollection.normalizeAux ctx coll = some (c', log) ∧
      CursorCollection.normalize ctx coll = some c' ∧
      1 ≤ c'.cursors.length ∧ (∀ i ∈ log, 1 ≤ i)) ∧
    (∃ (c' : CursorCollection) (log : List Nat),
      CursorCollection.removeSecondaryCursorsFromTailLog coll n = some (c', log) ∧
      CursorCollection.removeSecondaryCursorsFromTail coll n = some c' ∧
      (∀ i ∈ log, 1 ≤ i)) := by
  refine ⟨rfl, rfl, ?_, ?_, ?_, ?_⟩
  · obtain ⟨c', hc', hlen⟩ := CursorCollection.setStates_cons_spec ctx coll s rest h
    exact ⟨c', hc', hlen, by omega⟩
  · obtain ⟨c', hc', hlen⟩ := CursorCollection.setSecondaryStates_spec ctx coll [] h
    exact ⟨c', hc', hlen⟩
  · obtain ⟨c', log, haux, hlen, hge⟩ := CursorCollection.normalizeAux_inv ctx coll h
    refine ⟨c', log, haux, ?_, hlen, hge⟩
    unfold CursorCollection.normalize
    rw [haux]
    rfl
  · obtain ⟨c', log, hlog, hlen, hge⟩ :=
      CursorCollection.removeSecondaryCursorsFromTailLog_spec n coll hn
    refine ⟨c', log, hlog, ?_, hge⟩
    rw [← CursorCollection.removeSecondaryCursorsFromTailLog_agrees n coll, hlog]
    rfl

/-- C2 witness: on a two-cursor collection, construction yields one cursor
and `killSecondaryCursors` leaves exactly the primary. -/
theorem claim_C2_collection_invariant_witness :
    (CursorCollection.new idContext).cursors.length = 1 ∧
    (∃ c', CursorCollection.killSecondaryCursors idContext ⟨[cursorInit, cursorInit], 1⟩ =
      some c' ∧ c'.cursors.length = 1) := by
  have h := claim_C2_collection_invariant idContext ⟨[cursorInit, cursorInit], 1⟩
    (CursorState.fromModelSelection (caretSel 3 3)) [] 1 (by decide) (by decide)
  exact ⟨h.1, h.2.2.2.1⟩

/-- The loop's merge test on a two-entry snapshot is exactly the spec's
merge condition on (earlier, later). -/
theorem normalizeShouldMerge_two_iff (coll : CursorCollection) (a b : Nat)
    (e l : Selection) (log : List Nat) :
    (normalizeShouldMerge ⟨coll, [(a, e), (b, l)], log⟩ 0 = true ↔
      specC1MergeCondition e l) := by
  show (if l.isEmpty ∨ e.isEmpty then
      l.getStartPosition.isBeforeOrEqual e.getEndPosition
    else
      l.getStartPosition.isBefore e.getEndPosition) = true ↔ specC1MergeCondition e l
  by_cases hl : l.isEmpty = true <;> by_cases he : e.isEmpty = true <;>
    simp [specC1MergeCondition, hl, he]

/-- `normalize` on a two-cursor collection whose cursors are already in
start order: the loop merges into one cursor exactly when its merge test
fires, and otherwise leaves the collection unchanged. -/
theorem CursorCollection.normalize_two (ctx : CursorContext) (coll : CursorCollection)
    (c0 c1 : Cursor)
    (hcfg : ctx.cursorConfig.multiCursorMergeOverlapping = true)
    (hc : coll.cursors = [c0, c1])
    (hord : Range.compareRangesUsingStarts c0.modelState.selection.range
        c1.modelState.selection.range ≤ 0) :
    ∃ coll', CursorCollection.normalize ctx coll = some coll' ∧
      (normalizeShouldMerge
          ⟨coll, [(0, c0.modelState.selection), (1, c1.modelState.selection)], []⟩ 0 = true →
        coll'.cursors.length = 1) ∧
      (normalizeShouldMerge
          ⟨coll, [(0, c0.modelState.selection), (1, c1.modelState.selection)], []⟩ 0 = false →
        coll' = coll) := by
  have hlen2 : coll.cursors.length = 2 := by rw [hc]; rfl
  have hgt : ¬(Range.compareRangesUsingStarts c0.modelState.selection.range
      c1.modelState.selection.range > 0) := by omega
  have hsorted : sortCmp
      (fun a b : Nat × Selection => Range.compareRangesUsingStarts a.2.range b.2.range)
      ((coll.cursors.map (fun c => c.modelState.selection)).enum) =
      [(0, c0.modelState.selection), (1, c1.modelState.selection)] := by
    rw [hc]
    show insertCmp
        (fun a b : Nat × Selection => Range.compareRangesUsingStarts a.2.range b.2.range)
        (1, c1.modelState.selection)
        (insertCmp
          (fun a b : Nat × Selection => Range.compareRangesUsingStarts a.2.range b.2.range)
          (0, c0.modelState.selection) []) =
      [(0, c0.modelState.selection), (1, c1.modelState.selection)]
    rw [show insertCmp
        (fun a b : Nat × Selection => Range.compareRangesUsingStarts a.2.range b.2.range)
        (0, c0.modelState.selection) [] = [(0, c0.modelState.selection)] from rfl]
    unfold insertCmp
    dsimp only
    rw [if_neg hgt]
    rfl
  unfold CursorCollection.normalize CursorCollection.normalizeAux
  rw [if_neg (by omega)]
  dsimp only
  rw [hsorted]
  by_cases hb : normalizeShouldMerge
      ⟨coll, [(0, c0.modelState.selection), (1, c1.modelState.selection)], []⟩ 0 = true
  · obtain ⟨sc1, heq, hlenp⟩ := CursorCollection.normalizeMergedCursor_spec ctx coll 1 0
      c1.modelState.selection c0.modelState.selection (by omega)
    obtain ⟨la, hrm⟩ := CursorCollection.removeSecondaryCursor_at sc1.2 1 (by omega) (by omega)
    rw [CursorCollection.normalizeLoop_merge_eq ctx
      ⟨coll, [(0, c0.modelState.selection), (1, c1.modelState.selection)], []⟩ 0
      (by simp) hcfg hb sc1 heq ⟨sc1.2.cursors.eraseIdx 1, la⟩ hrm]
    rw [CursorCollection.normalizeLoop_halt ctx]
    · refine ⟨⟨sc1.2.cursors.eraseIdx 1, la⟩, rfl, ?_, ?_⟩
      · intro _
        show (sc1.2.cursors.eraseIdx 1).length = 1
        rw [List.length_eraseIdx_of_lt (by omega), hlenp, hlen2]
      · intro hfalse
        exact Bool.noConfusion (hb.symm.trans hfalse)
    · have e1 : normalizeLooserSorted
          ⟨coll, [(0, c0.modelState.selection), (1, c1.modelState.selection)], []⟩ 0 = 1 :=
        rfl
      rw [e1, List.length_eraseIdx_of_lt (by simp)]
      simp
  · have hbf : normalizeShouldMerge
        ⟨coll, [(0, c0.modelState.selection), (1, c1.modelState.selection)], []⟩ 0 = false := by
      cases h : normalizeShouldMerge
        ⟨coll, [(0, c0.modelState.selection), (1, c1.modelState.selection)], []⟩ 0
      · rfl
      · exact absurd h hb
    rw [CursorCollection.normalizeLoop_skip ctx
        ⟨coll, [(0, c0.modelState.selection), (1, c1.modelState.selection)], []⟩ 0
        (by simp) hcfg hbf,
      CursorCollection.normalizeLoop_halt ctx
        ⟨coll, [(0, c0.modelState.selection), (1, c1.modelState.selection)], []⟩ 1 (by simp)]
    refine ⟨coll, rfl, ?_, fun _ => rfl⟩
    intro htrue
    exact absurd htrue hb

/-- C1: with merge-overlap enabled, `normalize` on a two-cursor collection
in start-sorted order merges the pair into a single cursor exactly when
either selection is empty and the later selection's start is at-or-before
the earlier selection's end, or both are non-empty and the later
selection's start is strictly before the earlier selection's end
(otherwise both cursors survive unchanged); in particular, the cursors
with selections [1,1]-[1,5] and [1,3]-[1,8] normalize to exactly one
cursor whose selection is the union [1,1]-[1,8]. -/
theorem claim_C1_normalize_merge_condition (ctx : CursorContext)
    (coll : CursorCollection) (c0 c1 : Cursor)
    (hcfg : ctx.cursorConfig.multiCursorMergeOverlapping = true)
    (hc : coll.cursors = [c0, c1])
    (hord : Range.compareRangesUsingStarts c0.modelState.selection.range
        c1.modelState.selection.range ≤ 0) :
    (∃ coll', CursorCollection.normalize ctx coll = some coll' ∧
      (coll'.cursors.length = 1 ↔
        specC1MergeCondition c0.modelState.selection c1.modelState.selection) ∧
      (¬specC1MergeCondition c0.modelState.selection c1.modelState.selection →
        coll' = coll)) ∧
    (∃ collEx, CursorCollection.normalize idContext exampleColl = some collEx ∧
      collEx.cursors.map (fun c => c.modelState.selection) = [⟨1, 1, 1, 8⟩]) := by
  constructor
  · obtain ⟨coll', hn, htrue, hfalse⟩ :=
      CursorCollection.normalize_two ctx coll c0 c1 hcfg hc hord
    have hiff := normalizeShouldMerge_two_iff coll 0 1
      c0.modelState.selection c1.modelState.selection []
    have hlen2 : coll.cursors.length = 2 := by rw [hc]; rfl
    refine ⟨coll', hn, ?_, ?_⟩
    · constructor
      · intro h1len
        by_cases hbtrue : normalizeShouldMerge
            ⟨coll, [(0, c0.modelState.selection), (1, c1.modelState.selection)], []⟩ 0 = true
        · exact hiff.mp hbtrue
        · have hbf : normalizeShouldMerge
              ⟨coll, [(0, c0.modelState.selection), (1, c1.modelState.selection)], []⟩ 0 =
              false := by
            cases h : normalizeShouldMerge
              ⟨coll, [(0, c0.modelState.selection), (1, c1.modelState.selection)], []⟩ 0
            · rfl
            · exact absurd h hbtrue
          have hsame := hfalse hbf
          rw [hsame] at h1len
          omega
      · intro hcond
        exact htrue (hiff.mpr hcond)
    · intro hnc
      apply hfalse
      cases h : normalizeShouldMerge
        ⟨coll, [(0, c0.modelState.selection), (1, c1.modelState.selection)], []⟩ 0
      · rfl
      · exact absurd (hiff.mp h) hnc
  · refine ⟨⟨[cursorOf ⟨1, 1, 1, 8⟩], 0⟩, ?_, by decide⟩
    unfold CursorCollection.normalize CursorCollection.normalizeAux
    rw [if_neg (by decide)]
    dsimp only
    rw [show sortCmp
        (fun a b : Nat × Selection => Range.compareRangesUsingStarts a.2.range b.2.range)
        ((exampleColl.cursors.map (fun c => c.modelState.selection)).enum) =
        [((0 : Nat), (⟨1, 1, 1, 5⟩ : Selection)), (1, ⟨1, 3, 1, 8⟩)] from by decide]
    rw [CursorCollection.normalizeLoop_merge_eq idContext
      ⟨exampleColl, [(0, ⟨1, 1, 1, 5⟩), (1, ⟨1, 3, 1, 8⟩)], []⟩ 0 (by decide) (by decide)
      (by decide) (⟨1, 1, 1, 8⟩, ⟨[cursorOf ⟨1, 1, 1, 8⟩, cursorOf ⟨1, 3, 1, 8⟩], 0⟩)
      (by decide) ⟨[cursorOf ⟨1, 1, 1, 8⟩], 0⟩ (by decide)]
    rw [CursorCollection.normalizeLoop_halt idContext]
    · rfl
    · decide

/-- C1 witness: the spec's example merges to the single cursor
[1,1]-[1,8]. -/
theorem claim_C1_normalize_merge_condition_witness :
    ∃ collEx, CursorCollection.normalize idContext exampleColl = some collEx ∧
      collEx.cursors.map (fun c => c.modelState.selection) = [⟨1, 1, 1, 8⟩] :=
  (claim_C1_normalize_merge_condition idContext exampleColl
    (cursorOf ⟨1, 1, 1, 5⟩) (cursorOf ⟨1, 3, 1, 8⟩) (by decide) rfl (by decide)).2
